import Mathlib

/-
  Verification of the WorkflowMonitor recorder core
  (src/core/recorder_core/src/main.rs) against its natural-language
  specification.

  Shallow embedding conventions:
  * Rust `String`/`&str` values are modelled as `List Char` (abbrev `Str`).
  * RFC3339 timestamps and `time::Duration` values are modelled as `Int`
    seconds; formatting a timestamp and parsing it back are modelled as the
    identity on `Int`.  Where the code parses an untrusted string timestamp
    (ingest validation, tracking state), the parser is abstracted as an
    explicit `Str → Option Int` parameter.
  * `HashMap` buckets are modelled as association lists; iteration-order
    dependent output (tie order among equal-seconds top items) is fixed by a
    deterministic sort, which does not affect any property proved here.
-/

abbrev Str := List Char

def lowerStr (s : Str) : Str := s.map Char.toLower

/-- Rust `str::trim`: strip whitespace from both ends. -/
def trimStr (s : Str) : Str :=
  ((s.dropWhile Char.isWhitespace).reverse.dropWhile Char.isWhitespace).reverse

/-- Substring containment test (Rust `str::contains` with a string needle). -/
def containsSeq (needle : Str) : Str → Bool
  | [] => needle.isEmpty
  | c :: rest => needle.isPrefixOf (c :: rest) || containsSeq needle rest

/-- `Option<String>` filtered by `!s.trim().is_empty()` (keeps the raw value). -/
def non_blank : Option Str → Option Str
  | some s => if trimStr s = [] then none else some s
  | none => none

-- Constants from the top of main.rs.
def DOMAIN_FRESHNESS_SECONDS : Int := 300
def AUDIO_IDLE_CUTOFF_SECONDS : Int := 120
def REVIEW_MIN_SECONDS_MIN : Int := 60
def REVIEW_MIN_SECONDS_MAX : Int := 4 * 60 * 60
def REVIEW_LAST_BLOCK_END_GRACE_SECONDS : Int := 30

structure Settings where
  block_seconds : Int
  idle_cutoff_seconds : Int
  store_titles : Bool
  store_exe_path : Bool
  review_min_seconds : Int
  review_notify_repeat_minutes : Int
  review_notify_when_paused : Bool
  review_notify_when_idle : Bool
deriving DecidableEq, Repr

inductive EntityKind where
  | app
  | domain
deriving DecidableEq, Repr

def EntityKind.as_str : EntityKind → Str
  | .app => "app".toList
  | .domain => "domain".toList

/-- `is_browser_app`: basename (after the last `\` or `/`), lowercased,
    member of the closed browser-binary set. -/
def is_browser_app (app : Str) : Bool :=
  let parts := app.splitOnP (fun c => c = '\\' || c = '/')
  let name := lowerStr (parts.getLastD app)
  name = "chrome.exe".toList || name = "msedge.exe".toList ||
  name = "brave.exe".toList || name = "vivaldi.exe".toList ||
  name = "opera.exe".toList || name = "firefox.exe".toList

/-- `normalize_web_title`: trim; for a domain containing `youtube.` strip a
    trailing " - YouTube"; trim again. -/
def normalize_web_title (domain : Str) (raw : Str) : Str :=
  let t := trimStr raw
  if t = [] then []
  else
    let d := lowerStr domain
    let suf := " - YouTube".toList
    let t :=
      if containsSeq "youtube.".toList d && suf.isSuffixOf t then
        t.take (t.length - suf.length)
      else t
    trimStr t

def normalized_title_for_domain (domain : Str) (raw : Option Str)
    (store_titles : Bool) : Option Str :=
  if !store_titles then none
  else
    match raw with
    | none => none
    | some raw0 =>
      let r := trimStr raw0
      if r = [] then none
      else
        let t := normalize_web_title domain r
        if t = [] then none else some t

structure BucketKey where
  kind : EntityKind
  entity : Str
  title : Option Str
deriving DecidableEq, Repr

/-- `*bucket.entry(key).or_insert(0) += v` on an association-list bucket. -/
def bucketAdd : List (BucketKey × Int) → BucketKey → Int → List (BucketKey × Int)
  | [], k, v => [(k, v)]
  | (k', v') :: rest, k, v =>
    if k' = k then (k', v' + v) :: rest else (k', v') :: bucketAdd rest k v

def bucketSum (bucket : List (BucketKey × Int)) : Int :=
  (bucket.map (·.2)).sum

structure TopItem where
  kind : Str
  entity : Str
  title : Option Str
  seconds : Int
deriving DecidableEq, Repr

structure BlockReview where
  skipped : Bool
  skip_reason : Option Str
  doing : Option Str
  output : Option Str
  next : Option Str
  tags : List Str
  updated_at : Str
deriving DecidableEq, Repr

structure BlockSummary where
  id : Int
  start_ts : Int
  end_ts : Int
  total_seconds : Int
  top_items : List TopItem
  background_top_items : List TopItem
  background_seconds : Option Int
  review : Option BlockReview
deriving DecidableEq, Repr

/-- The descending-seconds order used by `sort_by(|a, b| b.seconds.cmp(&a.seconds))`. -/
def topItemGE (a b : TopItem) : Prop := b.seconds ≤ a.seconds

instance : DecidableRel topItemGE := fun a b => inferInstanceAs (Decidable (b.seconds ≤ a.seconds))

def bucketToItems (bucket : List (BucketKey × Int)) : List TopItem :=
  bucket.map (fun kv =>
    { kind := kv.1.kind.as_str
      entity := kv.1.entity
      title := match kv.1.kind with
        | .domain => kv.1.title
        | .app => none
      seconds := kv.2 })

/-- `finalize_block`: bucket entries sorted by seconds descending, top 5. -/
def finalize_block (start stop : Int) (bucket : List (BucketKey × Int))
    (total_seconds : Int) : BlockSummary :=
  let items := (List.insertionSort topItemGE (bucketToItems bucket)).take 5
  { id := start, start_ts := start, end_ts := stop, total_seconds := total_seconds
    top_items := items, background_top_items := [], background_seconds := none
    review := none }

structure EventForBlocks where
  ts : Int
  source : Str
  event : Str
  entity : Str
  title : Option Str
  activity : Option Str
deriving DecidableEq, Repr

/-- Focus/audio stream split predicate used by both builders. -/
def is_audio_event (e : EventForBlocks) : Bool :=
  (e.event = "tab_active".toList && e.activity = some "audio".toList) ||
  e.event = "tab_audio_stop".toList ||
  e.event = "app_audio".toList ||
  e.event = "app_audio_stop".toList

/-- Register state of the block-builder focus walk (`build_blocks`). -/
structure BlocksWalkState where
  blocks : List BlockSummary
  current_start : Int
  current_end : Int
  active_seconds : Int
  bucket : List (BucketKey × Int)
  current_app : Option Str
  current_domain : Option Str
  current_domain_title : Option Str
  current_domain_ts : Option Int
deriving DecidableEq, Repr

/-- The register-update `match cur.event` at the top of the `build_blocks` loop. -/
def blocks_update_registers (st : BlocksWalkState) (cur : EventForBlocks) : BlocksWalkState :=
  if cur.event = "app_active".toList then
    { st with current_app := some cur.entity }
  else if cur.event = "tab_active".toList then
    { st with current_domain := some cur.entity, current_domain_title := cur.title
              current_domain_ts := some cur.ts }
  else if cur.event = "tab_audio_stop".toList then
    { st with current_domain := none, current_domain_title := none, current_domain_ts := none }
  else if cur.event = "app_audio_stop".toList then
    { st with current_app := none }
  else
    { st with current_app := some cur.entity }

/-- The `resolve_entity` closure of `build_blocks`. -/
def resolve_entity (st : BlocksWalkState) (t : Int) : Option (EntityKind × Str × Option Str) :=
  match st.current_app with
  | some app =>
    if is_browser_app app then
      match st.current_domain, st.current_domain_ts with
      | some domain, some domain_ts =>
        if t - domain_ts ≤ DOMAIN_FRESHNESS_SECONDS then
          some (.domain, domain, st.current_domain_title)
        else some (.app, app, none)
      | some _, none => some (.app, app, none)
      | none, _ => some (.app, app, none)
    else some (.app, app, none)
  | none =>
    st.current_domain.map (fun d => (.domain, d, st.current_domain_title))

def bucketKeyFor (store_titles : Bool) (kind : EntityKind) (entity : Str)
    (title : Option Str) : BucketKey :=
  { kind := kind, entity := entity
    title := match kind with
      | .domain => normalized_title_for_domain entity title store_titles
      | .app => none }

/-- The inner `while seg > ZERO` slicing loop of `build_blocks`.  The loop is
    driven by fuel; each productive iteration consumes at least one second of
    `seg`, so fuel `seg.toNat` reproduces the Rust loop exactly. -/
def slice_loop (block_len : Int) (store_titles : Bool) :
    Nat → BlocksWalkState → Int → Int → BlocksWalkState
  | 0, st, _, _ => st
  | fuel + 1, st, seg_start, seg =>
    if seg ≤ 0 then st
    else
      let resolved := resolve_entity st seg_start
      let remaining := block_len - st.active_seconds
      let take := min seg remaining
      if take ≤ 0 then st
      else
        let stepped :=
          match resolved with
          | some (kind, entity, title) =>
            let key := bucketKeyFor store_titles kind entity title
            let st := { st with bucket := bucketAdd st.bucket key take
                                active_seconds := st.active_seconds + take
                                current_end := seg_start + take }
            (st, seg_start + take)
          | none => (st, seg_start)
        let st := stepped.1
        let seg_start := stepped.2
        let seg := seg - take
        let st :=
          if block_len ≤ st.active_seconds then
            { st with
                blocks := st.blocks ++
                  [finalize_block st.current_start st.current_end st.bucket st.active_seconds]
                current_start := st.current_end
                bucket := []
                active_seconds := 0 }
          else st
        slice_loop block_len store_titles fuel st seg_start seg

/-- One iteration of the `build_blocks` focus loop for event `cur` whose
    successor timestamp (or `now`) is `next_ts`. -/
def blocks_step (idle_cutoff block_len : Int) (store_titles : Bool)
    (st : BlocksWalkState) (cur : EventForBlocks) (next_ts : Int) : BlocksWalkState :=
  if next_ts ≤ cur.ts then st
  else
    let st := blocks_update_registers st cur
    let raw_gap := next_ts - cur.ts
    let seg := min raw_gap idle_cutoff
    if seg ≤ 0 then st
    else
      let st := slice_loop block_len store_titles seg.toNat st cur.ts seg
      if idle_cutoff < raw_gap then
        let st :=
          if 0 < st.active_seconds then
            { st with blocks := st.blocks ++
                [finalize_block st.current_start st.current_end st.bucket st.active_seconds] }
          else st
        { st with current_start := next_ts, current_end := next_ts, bucket := []
                  active_seconds := 0, current_app := none, current_domain := none
                  current_domain_title := none, current_domain_ts := none }
      else st

def blocks_walk (idle_cutoff block_len : Int) (store_titles : Bool) (now : Int) :
    BlocksWalkState → List EventForBlocks → BlocksWalkState
  | st, [] => st
  | st, cur :: rest =>
    let next_ts := ((rest.head?.map (·.ts)).getD now)
    blocks_walk idle_cutoff block_len store_titles now
      (blocks_step idle_cutoff block_len store_titles st cur next_ts) rest

def list_modify {α : Type} : List α → Nat → (α → α) → List α
  | [], _, _ => []
  | x :: xs, 0, f => f x :: xs
  | x :: xs, n + 1, f => x :: list_modify xs n f

/-- `while bi < len && block_times[bi].1 <= seg_start { bi += 1 }` (fuel-driven). -/
def bump_bi (block_times : List (Int × Int)) (seg_start : Int) :
    Nat → Nat → Nat
  | 0, bi => bi
  | fuel + 1, bi =>
    match block_times.get? bi with
    | some be => if be.2 ≤ seg_start then bump_bi block_times seg_start fuel (bi + 1) else bi
    | none => bi

/-- Inner `while j < len && block_times[j].0 < seg_end` overlap loop of
    `attach_background_audio`. -/
def add_overlaps (block_times : List (Int × Int)) (key : BucketKey)
    (seg_start seg_end : Int) :
    Nat → Nat → List (List (BucketKey × Int)) → List Int →
    List (List (BucketKey × Int)) × List Int
  | 0, _, pb, pt => (pb, pt)
  | fuel + 1, j, pb, pt =>
    match block_times.get? j with
    | none => (pb, pt)
    | some b =>
      if b.1 < seg_end then
        let overlap_start := max seg_start b.1
        let overlap_end := min seg_end b.2
        let sec := overlap_end - overlap_start
        let pb := if 0 < sec then list_modify pb j (fun m => bucketAdd m key sec) else pb
        let pt := if 0 < sec then list_modify pt j (· + sec) else pt
        add_overlaps block_times key seg_start seg_end fuel (j + 1) pb pt
      else (pb, pt)

/-- The audio-event loop of `attach_background_audio`, producing the per-block
    background buckets and totals. -/
def audio_overlay_loop (block_times : List (Int × Int)) (store_titles : Bool)
    (idle_cutoff now : Int) :
    List EventForBlocks → Nat → List (List (BucketKey × Int)) → List Int →
    List (List (BucketKey × Int)) × List Int
  | [], _, pb, pt => (pb, pt)
  | cur :: rest, bi, pb, pt =>
    let next_ts := ((rest.head?.map (·.ts)).getD now)
    if next_ts ≤ cur.ts then
      audio_overlay_loop block_times store_titles idle_cutoff now rest bi pb pt
    else if cur.event = "tab_audio_stop".toList || cur.event = "app_audio_stop".toList then
      audio_overlay_loop block_times store_titles idle_cutoff now rest bi pb pt
    else
      let raw_gap := next_ts - cur.ts
      let seg := min raw_gap idle_cutoff
      if seg ≤ 0 then
        audio_overlay_loop block_times store_titles idle_cutoff now rest bi pb pt
      else
        let seg_start := cur.ts
        let seg_end := cur.ts + seg
        let key : BucketKey :=
          { kind := if cur.event = "app_audio".toList then .app else .domain
            entity := cur.entity
            title := if cur.event = "tab_active".toList then
                normalized_title_for_domain cur.entity cur.title store_titles
              else none }
        let bi := bump_bi block_times seg_start block_times.length bi
        let res := add_overlaps block_times key seg_start seg_end
          block_times.length bi pb pt
        audio_overlay_loop block_times store_titles idle_cutoff now rest bi res.1 res.2

/-- `attach_background_audio`: sets `background_top_items`/`background_seconds`
    of each block from the audio-segment overlaps; `top_items` and
    `total_seconds` are untouched. -/
def attach_background_audio (blocks : List BlockSummary)
    (audio_events : List EventForBlocks) (store_titles : Bool)
    (idle_cutoff now : Int) : List BlockSummary :=
  let block_times := blocks.map (fun b => (b.start_ts, b.end_ts))
  let pb0 := blocks.map (fun _ => ([] : List (BucketKey × Int)))
  let pt0 := blocks.map (fun _ => (0 : Int))
  let res := audio_overlay_loop block_times store_titles idle_cutoff now
    audio_events 0 pb0 pt0
  (blocks.zip (res.1.zip res.2)).map (fun x =>
    let b := x.1
    let m := x.2.1
    let t := x.2.2
    if t ≤ 0 then b
    else
      let items := (List.insertionSort topItemGE (bucketToItems m)).take 5
      { b with background_seconds := some t, background_top_items := items })

/-- The focus walk of `build_blocks` from the initial state at the first
    event, with the trailing partial-block push. -/
def build_blocks_core (idle_cutoff block_len : Int) (store_titles : Bool) (now : Int)
    (focus_events : List EventForBlocks) (f0 : EventForBlocks) : List BlockSummary :=
  let st0 : BlocksWalkState :=
    { blocks := [], current_start := f0.ts, current_end := f0.ts
      active_seconds := 0, bucket := [], current_app := none
      current_domain := none, current_domain_title := none, current_domain_ts := none }
  let st := blocks_walk idle_cutoff block_len store_titles now st0 focus_events
  if 0 < st.active_seconds then
    st.blocks ++
      [finalize_block st.current_start st.current_end st.bucket st.active_seconds]
  else st.blocks

/-- `build_blocks` (main.rs:5489): fixed-length blocks of attributed focus
    time with the background-audio overlay. -/
def build_blocks (events : List EventForBlocks) (settings : Settings) (now : Int) :
    List BlockSummary :=
  match events with
  | [] => []
  | _ :: _ =>
    let focus0 := events.filter (fun e => !is_audio_event e)
    let audio0 := events.filter is_audio_event
    let audio_primary := focus0.isEmpty && !audio0.isEmpty
    let focus_events := if focus0.isEmpty then audio0 else focus0
    let audio_events := if focus0.isEmpty then [] else audio0
    match focus_events with
    | [] => []
    | f0 :: _ =>
      let block_len := max settings.block_seconds 60
      let default_idle_cutoff := max settings.idle_cutoff_seconds 10
      let audio_idle_cutoff := min default_idle_cutoff AUDIO_IDLE_CUTOFF_SECONDS
      let idle_cutoff := if audio_primary then audio_idle_cutoff else default_idle_cutoff
      let blocks := build_blocks_core idle_cutoff block_len settings.store_titles now
        focus_events f0
      if !audio_events.isEmpty && !blocks.isEmpty then
        attach_background_audio blocks audio_events settings.store_titles
          audio_idle_cutoff now
      else blocks

/-- Accumulator segment of the timeline builder (`SegmentAcc` in main.rs;
    the Rust field `end` is called `stop` here because `end` is a Lean keyword). -/
structure SegmentAcc where
  kind : EntityKind
  entity : Str
  title : Option Str
  activity : Str
  start : Int
  stop : Int
deriving DecidableEq, Repr

/-- `push_or_merge_segment`; the accumulator list is kept in reverse order
    (head = most recently pushed segment) to mirror `out.last_mut()`. -/
def push_or_merge_segment (out : List SegmentAcc) (seg : SegmentAcc) : List SegmentAcc :=
  if seg.stop ≤ seg.start then out
  else
    match out with
    | last :: rest =>
      if last.kind = seg.kind ∧ last.entity = seg.entity ∧ last.title = seg.title ∧
          last.activity = seg.activity ∧ last.stop = seg.start then
        { last with stop := seg.stop } :: rest
      else seg :: last :: rest
    | [] => [seg]

/-- Register state of the timeline focus walk. -/
structure TimelineWalkState where
  out : List SegmentAcc
  current_app : Option Str
  current_app_title : Option Str
  current_domain : Option Str
  current_domain_title : Option Str
  current_domain_ts : Option Int
deriving DecidableEq, Repr

def timeline_update_registers (st : TimelineWalkState) (cur : EventForBlocks) :
    TimelineWalkState :=
  if cur.event = "app_active".toList then
    { st with current_app := some cur.entity, current_app_title := cur.title }
  else if cur.event = "tab_active".toList then
    { st with current_domain := some cur.entity, current_domain_title := cur.title
              current_domain_ts := some cur.ts }
  else
    { st with current_app := some cur.entity, current_app_title := cur.title }

/-- Entity resolution of the timeline focus walk (evaluated at `cur.ts`). -/
def timeline_resolve (st : TimelineWalkState) (cur_ts : Int) :
    Option (EntityKind × Str × Option Str) :=
  match st.current_app with
  | some app =>
    if is_browser_app app then
      match st.current_domain, st.current_domain_ts with
      | some domain, some domain_ts =>
        if cur_ts - domain_ts ≤ DOMAIN_FRESHNESS_SECONDS then
          some (.domain, domain, st.current_domain_title)
        else some (.app, app, st.current_app_title)
      | some _, none => some (.app, app, st.current_app_title)
      | none, _ => some (.app, app, st.current_app_title)
    else some (.app, app, st.current_app_title)
  | none =>
    st.current_domain.map (fun d => (.domain, d, st.current_domain_title))

/-- One iteration of the timeline focus loop. -/
def timeline_step (focus_idle_cutoff : Int) (st : TimelineWalkState)
    (cur : EventForBlocks) (next_ts : Int) : TimelineWalkState :=
  if next_ts ≤ cur.ts then st
  else
    let st := timeline_update_registers st cur
    let raw_gap := next_ts - cur.ts
    let seg := min raw_gap focus_idle_cutoff
    if seg ≤ 0 then st
    else
      let seg_end := cur.ts + seg
      let st :=
        match timeline_resolve st cur.ts with
        | some (kind, entity, title) =>
          let seg : SegmentAcc :=
            { kind := kind, entity := entity, title := title
              activity := "focus".toList, start := cur.ts, stop := seg_end }
          { st with out := push_or_merge_segment st.out seg }
        | none => st
      if focus_idle_cutoff < raw_gap then
        { st with current_app := none, current_app_title := none, current_domain := none
                  current_domain_title := none, current_domain_ts := none }
      else st

def timeline_walk (focus_idle_cutoff : Int) (now : Int) :
    TimelineWalkState → List EventForBlocks → TimelineWalkState
  | st, [] => st
  | st, cur :: rest =>
    let next_ts := ((rest.head?.map (·.ts)).getD now)
    timeline_walk focus_idle_cutoff now (timeline_step focus_idle_cutoff st cur next_ts) rest

/-- The audio walk of `build_timeline_segments` (accumulator reversed). -/
def timeline_audio_walk (audio_idle_cutoff : Int) (now : Int) :
    List SegmentAcc → List EventForBlocks → List SegmentAcc
  | out, [] => out
  | out, cur :: rest =>
    let next_ts := ((rest.head?.map (·.ts)).getD now)
    if cur.event = "tab_active".toList || cur.event = "app_audio".toList then
      if next_ts ≤ cur.ts then timeline_audio_walk audio_idle_cutoff now out rest
      else
        let raw_gap := next_ts - cur.ts
        let seg := min raw_gap audio_idle_cutoff
        if seg ≤ 0 then timeline_audio_walk audio_idle_cutoff now out rest
        else
          let seg_end := cur.ts + seg
          let kind : EntityKind :=
            if cur.event = "tab_active".toList then .domain else .app
          timeline_audio_walk audio_idle_cutoff now
            (push_or_merge_segment out
              { kind := kind, entity := cur.entity, title := cur.title
                activity := "audio".toList, start := cur.ts, stop := seg_end }) rest
    else timeline_audio_walk audio_idle_cutoff now out rest

structure TimelineSegment where
  kind : Str
  entity : Str
  title : Option Str
  activity : Option Str
  start_ts : Int
  end_ts : Int
  seconds : Int
deriving DecidableEq, Repr

/-- Stable insertion used to model the stable `sort_by(|a, b| a.start.cmp(&b.start))`. -/
def insert_by_start (s : SegmentAcc) : List SegmentAcc → List SegmentAcc
  | [] => [s]
  | x :: xs => if x.start ≤ s.start then x :: insert_by_start s xs else s :: x :: xs

def sort_by_start (l : List SegmentAcc) : List SegmentAcc :=
  l.foldl (fun acc s => insert_by_start s acc) []

/-- `build_timeline_segments` (main.rs:5729). -/
def build_timeline_segments (events : List EventForBlocks) (settings : Settings)
    (now : Int) : List TimelineSegment :=
  match events with
  | [] => []
  | _ :: _ =>
    let default_idle_cutoff := max settings.idle_cutoff_seconds 10
    let focus_idle_cutoff := default_idle_cutoff
    let audio_idle_cutoff := min default_idle_cutoff AUDIO_IDLE_CUTOFF_SECONDS
    let focus_events := events.filter (fun e => !is_audio_event e)
    let audio_events := events.filter is_audio_event
    let focus_out :=
      if focus_events.isEmpty then []
      else
        (timeline_walk focus_idle_cutoff now
          { out := [], current_app := none, current_app_title := none
            current_domain := none, current_domain_title := none
            current_domain_ts := none } focus_events).out.reverse
    let audio_out :=
      if audio_events.isEmpty then []
      else (timeline_audio_walk audio_idle_cutoff now [] audio_events).reverse
    let all := sort_by_start (focus_out ++ audio_out)
    all.filterMap (fun s =>
      let seconds := s.stop - s.start
      if seconds ≤ 0 then none
      else some
        { kind := s.kind.as_str, entity := s.entity, title := s.title
          activity := some s.activity, start_ts := s.start, end_ts := s.stop
          seconds := seconds })

-- ---------------------------------------------------------------------------
-- Privacy index and privacy decisions
-- ---------------------------------------------------------------------------

/-- The in-memory `PrivacyIndex` map `(kind, value) → action`, modelled as an
    association list (the DB enforces uniqueness of `(kind, value)`). -/
abbrev PrivacyIndex := List ((Str × Str) × Str)

def idx_get (idx : PrivacyIndex) (k : Str × Str) : Option Str :=
  (idx.find? (fun r => r.1 = k)).map (·.2)

inductive PrivacyDecision where
  | allow
  | drop
  | mask
deriving DecidableEq, Repr

def privacy_kind_for_event (event : Str) : Str :=
  if event = "tab_active".toList || event = "tab_audio_stop".toList then "domain".toList
  else if event = "app_active".toList || event = "app_audio".toList ||
      event = "app_audio_stop".toList then "app".toList
  else "app".toList

/-- `PrivacyIndex::decision_for` (main.rs:891): exact lookup on the normalized
    entity (trimmed; lowercased for domain kinds). -/
def decision_for (idx : PrivacyIndex) (event entity : Str) : PrivacyDecision :=
  let kind := privacy_kind_for_event event
  let value := if kind = "domain".toList then lowerStr (trimStr entity) else trimStr entity
  match idx_get idx (kind, value) with
  | some a =>
    if a = "drop".toList then .drop
    else if a = "mask".toList then .mask
    else .allow
  | none => .allow

/-- Rust `str::split_once`: split at the first occurrence of `sep`. -/
def split_once : Str → Char → Option (Str × Str)
  | [], _ => none
  | c :: rest, sep =>
    if c = sep then some ([], rest)
    else (split_once rest sep).map (fun p => (c :: p.1, p.2))

/-- The suffix-walk loop inside `privacy_action_for_event`'s `check_domain`
    (fuel-driven; each step strips one leading label, so fuel
    `candidate.length` reproduces the Rust loop exactly). -/
def check_domain_loop (rules : PrivacyIndex) : Nat → Str → Option Str
  | 0, _ => none
  | fuel + 1, candidate =>
    match idx_get rules ("domain".toList, candidate) with
    | some action => some action
    | none =>
      match split_once candidate '.' with
      | none => none
      | some p =>
        if !p.2.contains '.' then none
        else check_domain_loop rules fuel p.2

/-- `check_domain` closure of `privacy_action_for_event` (main.rs:5167):
    ingest-side domain lookup with suffix walking, stopping before the TLD
    singleton. -/
def check_domain (rules : PrivacyIndex) (domain : Str) : Option Str :=
  let domain_lc := lowerStr domain
  if !domain_lc.contains '.' then idx_get rules ("domain".toList, domain_lc)
  else check_domain_loop rules domain_lc.length domain_lc

structure IngestEvent where
  v : Int
  ts : Str
  source : Str
  event : Str
  domain : Option Str
  app : Option Str
  title : Option Str
deriving DecidableEq, Repr

def privacy_action_tail (rules : PrivacyIndex) (e : IngestEvent) : Option Str :=
  let from_app :=
    match non_blank e.app with
    | some a => idx_get rules ("app".toList, a)
    | none => none
  match non_blank e.domain with
  | some d =>
    match check_domain rules d with
    | some action => some action
    | none => from_app
  | none => from_app

/-- `privacy_action_for_event` (main.rs:5152): the ingest-side privacy lookup
    (the SQL `SELECT action FROM privacy_rules ...` is modelled by `idx_get`
    on the rule table). -/
def privacy_action_for_event (rules : PrivacyIndex) (e : IngestEvent) : Option Str :=
  if e.event = "tab_active".toList then
    match non_blank e.domain with
    | some d => check_domain rules d
    | none => privacy_action_tail rules e
  else if e.event = "app_active".toList then
    match non_blank e.app with
    | some a => idx_get rules ("app".toList, a)
    | none => privacy_action_tail rules e
  else privacy_action_tail rules e

-- ---------------------------------------------------------------------------
-- Read paths: /events tail and the range query feeding timeline/blocks/export
-- ---------------------------------------------------------------------------

structure EventRecord where
  id : Int
  ts : Str
  source : Str
  event : Str
  entity : Option Str
  title : Option Str
  activity : Option Str
deriving DecidableEq, Repr

/-- `apply_privacy_to_event` (main.rs:333): used by the `/events` tail and the
    Now reducer; Drop removes the event, Mask hides entity and title. -/
def apply_privacy_to_event (e : EventRecord) (privacy : PrivacyIndex) :
    Option EventRecord :=
  match e.entity with
  | some entity =>
    match decision_for privacy e.event entity with
    | .allow => some e
    | .drop => none
    | .mask => some { e with entity := some "__hidden__".toList, title := none }
  | none => some e

/-- The `/events` tail loop body: each surviving row passes through
    `apply_privacy_to_event` (rows are the SQL result, newest first). -/
def list_events_tail (privacy : PrivacyIndex) (rows : List EventRecord) :
    List EventRecord :=
  rows.filterMap (fun r => apply_privacy_to_event r privacy)

/-- The privacy application inside `list_events_between` (main.rs:5381): both
    Drop and Mask keep the row but replace its entity with `__hidden__` and
    clear the title ("keep timing continuity").  `rows` models the SQL result
    (events in `[start, end)` with non-null entity, ascending ts). -/
def list_events_between (privacy : PrivacyIndex) (rows : List EventForBlocks) :
    List EventForBlocks :=
  rows.map (fun e =>
    match decision_for privacy e.event e.entity with
    | .allow => e
    | .drop => { e with entity := "__hidden__".toList, title := none }
    | .mask => { e with entity := "__hidden__".toList, title := none })

-- ---------------------------------------------------------------------------
-- Tracking state
-- ---------------------------------------------------------------------------

structure TrackingState where
  paused : Bool
  paused_until_ts : Option Str
  updated_at : Str
deriving DecidableEq, Repr

/-- `set_tracking_resume`: paused=0, paused_until_ts=NULL. -/
def set_tracking_resume (nowStr : Str) : TrackingState :=
  { paused := false, paused_until_ts := none, updated_at := nowStr }

/-- `tracking_is_paused` (main.rs:5251).  `parseTs` abstracts
    `OffsetDateTime::parse(_, &Rfc3339)`; `nowStr` is the formatted `now`
    written into `updated_at` on auto-resume.  Returns the answer and the
    (possibly auto-resumed) stored state. -/
def tracking_is_paused (parseTs : Str → Option Int) (st : TrackingState)
    (now : Int) (nowStr : Str) : Bool × TrackingState :=
  if st.paused = false then (false, st)
  else
    match st.paused_until_ts with
    | some until_ts =>
      match parseTs until_ts with
      | some u =>
        if u ≤ now then (false, set_tracking_resume nowStr) else (true, st)
      | none => (false, set_tracking_resume nowStr)
    | none => (true, st)

-- ---------------------------------------------------------------------------
-- Ingest pipeline (POST /event)
-- ---------------------------------------------------------------------------

/-- Minimal JSON value model for persisted payload fields. -/
inductive Jval where
  | str : Str → Jval
  | num : Int → Jval
  | bool : Bool → Jval
  | null : Jval
deriving DecidableEq, Repr, Inhabited

/-- JSON object, in field order. -/
abbrev Jobj := List (Str × Jval)

def obj_lookup (o : Jobj) (k : Str) : Option Jval :=
  (o.find? (fun p => p.1 = k)).map (·.2)

def obj_contains_key (o : Jobj) (k : Str) : Bool :=
  o.any (fun p => p.1 = k)

/-- `serde_json::Map::insert`: replace in place if present, else append. -/
def obj_insert : Jobj → Str → Jval → Jobj
  | [], k, v => [(k, v)]
  | (k', v') :: rest, k, v =>
    if k' = k then (k, v) :: rest else (k', v') :: obj_insert rest k v

def obj_remove (o : Jobj) (k : Str) : Jobj :=
  o.filter (fun p => p.1 ≠ k)

structure StoredEvent where
  ts : Str
  source : Str
  event : Str
  entity : Option Str
  title : Option Str
  payload : Jobj
deriving DecidableEq, Repr

structure CoreState where
  log : List StoredEvent
  tracking : TrackingState
  rules : PrivacyIndex
deriving DecidableEq, Repr

inductive PostResult where
  | ok
  | err : Str → PostResult
deriving DecidableEq, Repr

/-- The required-entity computation of `post_event`. -/
def post_event_entity (e : IngestEvent) : Option Str :=
  if e.event = "tab_active".toList then non_blank e.domain
  else if e.event = "app_active".toList then non_blank e.app
  else
    match non_blank e.domain with
    | some d => some d
    | none => non_blank e.app

/-- Mask sanitization, domain part: if a `domain` field exists replace it with
    `__hidden__` and remove `title`. -/
def mask_domain_step (o : Jobj) : Jobj :=
  if obj_contains_key o "domain".toList then
    obj_remove (obj_insert o "domain".toList (Jval.str "__hidden__".toList)) "title".toList
  else o

/-- Mask sanitization, app part: if an `app` field exists replace it with
    `__hidden__` and remove `title`, `exePath`, `pid`. -/
def mask_app_step (o : Jobj) : Jobj :=
  if obj_contains_key o "app".toList then
    obj_remove (obj_remove (obj_remove
      (obj_insert o "app".toList (Jval.str "__hidden__".toList))
      "title".toList) "exePath".toList) "pid".toList
  else o

/-- The Mask sanitization of `post_event`: set `masked: true`, then the domain
    part, then the app part. -/
def mask_payload (payload : Jobj) : Jobj :=
  mask_app_step (mask_domain_step (obj_insert payload "masked".toList (Jval.bool true)))

/-- The global privacy-settings strip of `post_event` (store_titles /
    store_exe_path). -/
def settings_strip (settings : Settings) (title : Option Str) (payload : Jobj) :
    Option Str × Jobj :=
  let r := if !settings.store_titles then (none, obj_remove payload "title".toList)
           else (title, payload)
  if !settings.store_exe_path then
    (r.1, obj_remove (obj_remove r.2 "exePath".toList) "pid".toList)
  else r

/-- `post_event` (main.rs:1135), after JSON deserialization succeeded.
    `e` is the deserialized event, `payload` the same request body as a JSON
    object (serde guarantees the two agree on the `domain`/`app`/`title`/`ts`
    fields).  Storage errors are not modelled (inserts are total). -/
def post_event (parseTs : Str → Option Int) (fmtTs : Int → Str)
    (settings : Settings) (now : Int) (st : CoreState) (e : IngestEvent)
    (payload : Jobj) : PostResult × CoreState :=
  if e.v < 1 then (.err "invalid_version".toList, st)
  else if (parseTs e.ts).isNone then (.err "invalid_ts".toList, st)
  else
    let entity := post_event_entity e
    if e.event = "tab_active".toList ∧ entity = none then
      (.err "missing_domain".toList, st)
    else if e.event = "tab_audio_stop".toList ∧ entity = none then
      (.err "missing_domain".toList, st)
    else if (e.event = "app_active".toList ∨ e.event = "app_audio".toList ∨
        e.event = "app_audio_stop".toList) ∧ entity = none then
      (.err "missing_app".toList, st)
    else
      let title := e.title
      let paused := tracking_is_paused parseTs st.tracking now (fmtTs now)
      let st := { st with tracking := paused.2 }
      if paused.1 then (.ok, st)
      else
        let action := privacy_action_for_event st.rules e
        if action = some "drop".toList then (.ok, st)
        else
          let masked :=
            if action = some "mask".toList then
              (some "__hidden__".toList, (none : Option Str), mask_payload payload)
            else (entity, title, payload)
          let stripped := settings_strip settings masked.2.1 masked.2.2
          let row : StoredEvent :=
            { ts := e.ts, source := e.source, event := e.event
              entity := masked.1, title := stripped.1, payload := stripped.2 }
          (.ok, { st with log := st.log ++ [row] })

-- ---------------------------------------------------------------------------
-- Review doneness and the due-block selector
-- ---------------------------------------------------------------------------

/-- `block_is_reviewed` (main.rs:1846). -/
def block_is_reviewed (r : BlockReview) : Bool :=
  if r.skipped then true
  else if trimStr (r.doing.getD []) ≠ [] then true
  else if trimStr (r.output.getD []) ≠ [] then true
  else if trimStr (r.next.getD []) ≠ [] then true
  else !r.tags.isEmpty

/-- The reverse-index loop of `find_due_block`, run over the reversed block
    list; `is_last` is true exactly for the chronologically last block.
    (`end_ts` parsing is infallible in the integer-timestamp model.) -/
def find_due_aux (min_seconds block_seconds now : Int) :
    Bool → List BlockSummary → Option BlockSummary
  | _, [] => none
  | is_last, b :: rest =>
    if b.total_seconds < min_seconds then
      find_due_aux min_seconds block_seconds now false rest
    else if (b.review.map block_is_reviewed).getD false then
      find_due_aux min_seconds block_seconds now false rest
    else if !is_last then some b
    else if block_seconds ≤ b.total_seconds then some b
    else if REVIEW_LAST_BLOCK_END_GRACE_SECONDS < now - b.end_ts then some b
    else find_due_aux min_seconds block_seconds now false rest

/-- `find_due_block` (main.rs:1862). -/
def find_due_block (blocks : List BlockSummary) (settings : Settings) (now : Int) :
    Option BlockSummary :=
  match blocks with
  | [] => none
  | _ :: _ =>
    let min_seconds :=
      max REVIEW_MIN_SECONDS_MIN (min settings.review_min_seconds REVIEW_MIN_SECONDS_MAX)
    let block_seconds := max settings.block_seconds 60
    find_due_aux min_seconds block_seconds now true blocks.reverse

/-- Modelled from the spec: the claim-side "done" predicate — skipped, or any
    of doing/output/next non-blank after trimming, or a non-empty tag set. -/
def review_done_spec (r : BlockReview) : Bool :=
  r.skipped || trimStr (r.doing.getD []) ≠ [] || trimStr (r.output.getD []) ≠ [] ||
  trimStr (r.next.getD []) ≠ [] || !r.tags.isEmpty

/-- Modelled from the spec: "reviewable" — total_seconds at least the clamped
    review minimum and review not done. -/
def due_reviewable (min_seconds : Int) (b : BlockSummary) : Bool :=
  min_seconds ≤ b.total_seconds && !((b.review.map review_done_spec).getD false)

/-- Modelled from the spec: the extra condition on the chronologically last
    block — full (total ≥ max(60, block_seconds)) or past the 30 s grace. -/
def due_last_ok (block_seconds now : Int) (b : BlockSummary) : Bool :=
  max block_seconds 60 ≤ b.total_seconds || 30 < now - b.end_ts

/-- Modelled from the spec (claim C5): iterate blocks newest-first; the last
    block must additionally satisfy `due_last_ok`; every older reviewable
    block qualifies outright. -/
def find_due_spec (blocks : List BlockSummary) (settings : Settings) (now : Int) :
    Option BlockSummary :=
  let minS := max 60 (min settings.review_min_seconds 14400)
  match blocks.reverse with
  | [] => none
  | last :: older =>
    if due_reviewable minS last && due_last_ok settings.block_seconds now last then
      some last
    else older.find? (due_reviewable minS)

-- ---------------------------------------------------------------------------
-- CSV escaping
-- ---------------------------------------------------------------------------

/-- `s.replace('"', "\"\"")`. -/
def esc_doubled : Str → Str
  | [] => []
  | c :: rest => if c = '"' then '"' :: '"' :: esc_doubled rest else c :: esc_doubled rest

/-- `csv_escape` (main.rs:6272). -/
def csv_escape (s : Str) : Str :=
  let needs_quote := s.contains ',' || s.contains '"' || s.contains '\n' || s.contains '\r'
  if !needs_quote then s
  else '"' :: (esc_doubled s ++ ['"'])

/-- Modelled from the spec: RFC 4180 collapse of doubled quotes. -/
def collapse_quotes : Str → Str
  | [] => []
  | [c] => [c]
  | c :: d :: rest =>
    if c = '"' ∧ d = '"' then '"' :: collapse_quotes rest
    else c :: collapse_quotes (d :: rest)

/-- Modelled from the spec: RFC 4180 un-escaping — strip a wrapping pair of
    double quotes and collapse doubled quotes; anything else is verbatim. -/
def rfc4180_unescape (cell : Str) : Str :=
  match cell with
  | [] => []
  | c :: rest =>
    if c = '"' ∧ rest ≠ [] ∧ rest.getLast? = some '"' then collapse_quotes rest.dropLast
    else c :: rest

/-- Total attributed focus seconds held by a block-walk state: the running
    block plus every finalized block. -/
def walk_attributed (st : BlocksWalkState) : Int :=
  st.active_seconds + (st.blocks.map (·.total_seconds)).sum

/-- Total seconds covered by an accumulator segment list. -/
def segs_total (out : List SegmentAcc) : Int :=
  (out.map (fun s => s.stop - s.start)).sum

def top_items_sum (b : BlockSummary) : Int :=
  (b.top_items.map (·.seconds)).sum

-- ---------------------------------------------------------------------------
-- Theorems
-- ---------------------------------------------------------------------------

lemma collapse_quotes_esc_doubled (s : Str) : collapse_quotes (esc_doubled s) = s := by
  induction s with
  | nil => rfl
  | cons c rest ih =>
    by_cases hc : c = '"'
    · subst hc
      simp [esc_doubled, collapse_quotes, ih]
    · cases rest with
      | nil => simp [esc_doubled, collapse_quotes, hc]
      | cons d rest' =>
        by_cases hd : d = '"' <;>
          simp [esc_doubled, collapse_quotes, hc, hd] at ih ⊢ <;>
          simpa [esc_doubled, hd] using ih

/-- C9: CSV escaping wraps and doubles quotes exactly when the cell contains a
    comma, a double quote, a newline or a carriage return (otherwise the cell
    is verbatim), and RFC 4180 un-escaping recovers the original string. -/
theorem c9_csv_round_trip (s : Str) :
    (csv_escape s =
      if (s.contains ',' || s.contains '"' || s.contains '\n' || s.contains '\r') = true
      then '"' :: (esc_doubled s ++ ['"']) else s) ∧
    rfc4180_unescape (csv_escape s) = s := by
  have hesc : csv_escape s =
      if (s.contains ',' || s.contains '"' || s.contains '\n' || s.contains '\r') = true
      then '"' :: (esc_doubled s ++ ['"']) else s := by
    by_cases h : (s.contains ',' || s.contains '"' || s.contains '\n' || s.contains '\r') = true
    · rw [if_pos h]
      simp only [csv_escape, h, Bool.not_true, Bool.false_eq_true, if_false]
    · rw [if_neg h]
      have hb : (s.contains ',' || s.contains '"' || s.contains '\n' || s.contains '\r') = false := by
        revert h
        cases (s.contains ',' || s.contains '"' || s.contains '\n' || s.contains '\r') <;> simp
      simp only [csv_escape, hb, Bool.not_false, if_true]
  refine ⟨hesc, ?_⟩
  rw [hesc]
  by_cases h : (s.contains ',' || s.contains '"' || s.contains '\n' || s.contains '\r') = true
  · rw [if_pos h]
    have h1 : (esc_doubled s ++ ['"']) ≠ [] := by simp
    have h2 : (esc_doubled s ++ ['"']).getLast? = some '"' := by
      simp [List.getLast?_concat]
    have h3 : (esc_doubled s ++ ['"']).dropLast = esc_doubled s := by
      simp [List.dropLast_concat]
    simp only [rfc4180_unescape]
    rw [if_pos ⟨trivial, h1, h2⟩, h3]
    exact collapse_quotes_esc_doubled s
  · rw [if_neg h]
    have hb : (s.contains ',' || s.contains '"' || s.contains '\n' || s.contains '\r') = false := by
      revert h
      cases (s.contains ',' || s.contains '"' || s.contains '\n' || s.contains '\r') <;> simp
    have hq : s.contains '"' = false := by
      rcases Bool.or_eq_false_iff.mp hb with ⟨hb1, _⟩
      rcases Bool.or_eq_false_iff.mp hb1 with ⟨hb2, _⟩
      exact (Bool.or_eq_false_iff.mp hb2).2
    cases s with
    | nil => rfl
    | cons c rest =>
      have hc : ¬ c = '"' := by
        intro hcq
        subst hcq
        simp [List.contains_cons] at hq
      simp only [rfc4180_unescape]
      rw [if_neg (by intro hcon; exact hc hcon.1)]

lemma block_is_reviewed_eq (r : BlockReview) : block_is_reviewed r = review_done_spec r := by
  by_cases h1 : r.skipped <;>
    by_cases h2 : trimStr (r.doing.getD []) = [] <;>
    by_cases h3 : trimStr (r.output.getD []) = [] <;>
    by_cases h4 : trimStr (r.next.getD []) = [] <;>
    simp [block_is_reviewed, review_done_spec, h1, h2, h3, h4]

lemma reviewed_getD_eq (o : Option BlockReview) :
    (o.map block_is_reviewed).getD false = (o.map review_done_spec).getD false := by
  cases o with
  | none => rfl
  | some r => simp [block_is_reviewed_eq]

lemma find_due_aux_false_eq (m bs now : Int) (l : List BlockSummary) :
    find_due_aux m bs now false l = l.find? (due_reviewable m) := by
  induction l with
  | nil => rfl
  | cons b rest ih =>
    by_cases h1 : b.total_seconds < m
    · have hd : due_reviewable m b = false := by
        simp only [due_reviewable, Bool.and_eq_false_iff]
        left
        simpa using h1
      simp [find_due_aux, h1, hd, ih]
    · by_cases h2 : (b.review.map block_is_reviewed).getD false = true
      · have hd : due_reviewable m b = false := by
          simp only [due_reviewable, Bool.and_eq_false_iff]
          right
          rw [← reviewed_getD_eq, h2]
          rfl
        simp [find_due_aux, h1, h2, hd, ih]
      · have hd : due_reviewable m b = true := by
          simp only [due_reviewable, Bool.and_eq_true]
          constructor
          · simpa using not_lt.mp h1
          · rw [← reviewed_getD_eq]
            revert h2
            cases (b.review.map block_is_reviewed).getD false <;> simp
        simp [find_due_aux, h1, h2, hd]

/-- C5: `find_due_block` implements the spec's selector — iterate blocks
    newest-first, skip blocks under the clamped review minimum or with a done
    review; an older block (one with a newer successor) is returned outright,
    the chronologically last block only when full (≥ max(60, block_seconds))
    or ended more than 30 s before `now`. -/
theorem c5_due_block_selector (blocks : List BlockSummary) (settings : Settings)
    (now : Int) :
    find_due_block blocks settings now = find_due_spec blocks settings now := by
  have hM : max REVIEW_MIN_SECONDS_MIN (min settings.review_min_seconds REVIEW_MIN_SECONDS_MAX)
      = max 60 (min settings.review_min_seconds 14400) := by
    norm_num [REVIEW_MIN_SECONDS_MIN, REVIEW_MIN_SECONDS_MAX]
  cases hb : blocks with
  | nil => rfl
  | cons b0 bs0 =>
    unfold find_due_block find_due_spec
    rw [hM]
    cases hr : (b0 :: bs0).reverse with
    | nil =>
      exact absurd hr (by simp)
    | cons last older =>
      set M := max 60 (min settings.review_min_seconds 14400) with hMdef
      set B := max settings.block_seconds 60 with hBdef
      by_cases h1 : last.total_seconds < M
      · have hd : due_reviewable M last = false := by
          simp only [due_reviewable, Bool.and_eq_false_iff]
          left
          simpa using h1
        simp [find_due_aux, h1, hd, find_due_aux_false_eq]
      · by_cases h2 : (last.review.map block_is_reviewed).getD false = true
        · have hd : due_reviewable M last = false := by
            simp only [due_reviewable, Bool.and_eq_false_iff]
            right
            rw [← reviewed_getD_eq, h2]
            rfl
          simp [find_due_aux, h1, h2, hd, find_due_aux_false_eq]
        · have hd : due_reviewable M last = true := by
            simp only [due_reviewable, Bool.and_eq_true]
            constructor
            · simpa using not_lt.mp h1
            · rw [← reviewed_getD_eq]
              revert h2
              cases (last.review.map block_is_reviewed).getD false <;> simp
          by_cases h3 : B ≤ last.total_seconds
          · have ho : due_last_ok settings.block_seconds now last = true := by
              simp only [due_last_ok, Bool.or_eq_true]
              left
              simpa [← hBdef] using h3
            simp [find_due_aux, h1, h2, h3, hd, ho]
          · by_cases h4 : REVIEW_LAST_BLOCK_END_GRACE_SECONDS < now - last.end_ts
            · have ho : due_last_ok settings.block_seconds now last = true := by
                simp only [due_last_ok, Bool.or_eq_true]
                right
                simpa [REVIEW_LAST_BLOCK_END_GRACE_SECONDS] using h4
              simp [find_due_aux, h1, h2, h3, h4, hd, ho]
            · have ho : due_last_ok settings.block_seconds now last = false := by
                simp only [due_last_ok, Bool.or_eq_false_iff]
                constructor
                · simpa [← hBdef] using h3
                · simpa [REVIEW_LAST_BLOCK_END_GRACE_SECONDS] using h4
              simp [find_due_aux, h1, h2, h3, h4, hd, ho, find_due_aux_false_eq]

/-- C7: an ingest request with schema version below 1 is rejected with
    `invalid_version`, and one with an unparseable timestamp with
    `invalid_ts`; in both cases the stored state (event log, tracking state,
    rules) is returned unchanged. -/
theorem c7_ingest_validation (parseTs : Str → Option Int) (fmtTs : Int → Str)
    (settings : Settings) (now : Int) (st : CoreState) (e : IngestEvent)
    (payload : Jobj) :
    (e.v < 1 →
      post_event parseTs fmtTs settings now st e payload =
        (.err "invalid_version".toList, st)) ∧
    (1 ≤ e.v → parseTs e.ts = none →
      post_event parseTs fmtTs settings now st e payload =
        (.err "invalid_ts".toList, st)) := by
  constructor
  · intro h
    simp [post_event, h]
  · intro h1 h2
    have hv : ¬ e.v < 1 := by omega
    simp [post_event, hv, h2]

theorem c7_ingest_validation_witness :
    post_event (fun _ => none) (fun _ => []) ⟨60, 10, false, false, 300, 30, false, false⟩ 0
        ⟨[], ⟨false, none, []⟩, []⟩ ⟨0, [], [], [], none, none, none⟩ [] =
      (.err "invalid_version".toList, ⟨[], ⟨false, none, []⟩, []⟩) ∧
    post_event (fun _ => none) (fun _ => []) ⟨60, 10, false, false, 300, 30, false, false⟩ 0
        ⟨[], ⟨false, none, []⟩, []⟩ ⟨1, [], [], [], none, none, none⟩ [] =
      (.err "invalid_ts".toList, ⟨[], ⟨false, none, []⟩, []⟩) :=
  ⟨(c7_ingest_validation (fun _ => none) (fun _ => []) ⟨60, 10, false, false, 300, 30, false, false⟩
      0 ⟨[], ⟨false, none, []⟩, []⟩ ⟨0, [], [], [], none, none, none⟩ []).1 (by decide),
   (c7_ingest_validation (fun _ => none) (fun _ => []) ⟨60, 10, false, false, 300, 30, false, false⟩
      0 ⟨[], ⟨false, none, []⟩, []⟩ ⟨1, [], [], [], none, none, none⟩ []).2 (by decide) rfl⟩

/-- C8: `tracking_is_paused` auto-resumes (returns false and stores
    paused=false with the deadline cleared) exactly when the state is paused
    with a deadline that parses to a time ≤ now or fails to parse; in every
    other case it returns the stored paused flag and leaves the state
    unchanged. -/
theorem c8_auto_resume (parseTs : Str → Option Int) (st : TrackingState)
    (now : Int) (nowStr : Str) :
    (st.paused = false → tracking_is_paused parseTs st now nowStr = (false, st)) ∧
    (st.paused = true → st.paused_until_ts = none →
      tracking_is_paused parseTs st now nowStr = (true, st)) ∧
    (∀ u, st.paused = true → st.paused_until_ts = some u →
      ((parseTs u = none →
         tracking_is_paused parseTs st now nowStr = (false, set_tracking_resume nowStr)) ∧
       (∀ t, parseTs u = some t → t ≤ now →
         tracking_is_paused parseTs st now nowStr = (false, set_tracking_resume nowStr)) ∧
       (∀ t, parseTs u = some t → now < t →
         tracking_is_paused parseTs st now nowStr = (true, st)))) := by
  refine ⟨?_, ?_, ?_⟩
  · intro h
    simp [tracking_is_paused, h]
  · intro h1 h2
    simp [tracking_is_paused, h1, h2]
  · intro u h1 h2
    refine ⟨?_, ?_, ?_⟩
    · intro hp
      simp [tracking_is_paused, h1, h2, hp]
    · intro t hp hle
      simp [tracking_is_paused, h1, h2, hp, hle]
    · intro t hp hlt
      simp [tracking_is_paused, h1, h2, hp, not_le.mpr hlt]

theorem c8_auto_resume_witness :
    tracking_is_paused (fun _ => some 0) ⟨true, some "u".toList, []⟩ 5 "n".toList =
      (false, set_tracking_resume "n".toList) :=
  ((c8_auto_resume (fun _ => some 0) ⟨true, some "u".toList, []⟩ 5 "n".toList).2.2
    "u".toList rfl rfl).2.1 0 rfl (by decide)

/-- C10: in both the block builder and the timeline builder, a focus event
    whose successor timestamp (or `now`) is not strictly later than its own
    timestamp is skipped before the register update: the walk state is
    entirely unchanged — no time is attributed and the app/domain registers
    still hold what an earlier event set. -/
theorem c10_non_advancing_events (idle_cutoff block_len : Int) (store_titles : Bool)
    (bst : BlocksWalkState) (tst : TimelineWalkState) (cur : EventForBlocks)
    (next_ts : Int) (h : next_ts ≤ cur.ts) :
    blocks_step idle_cutoff block_len store_titles bst cur next_ts = bst ∧
    timeline_step idle_cutoff tst cur next_ts = tst := by
  constructor
  · simp [blocks_step, h]
  · simp [timeline_step, h]

theorem c10_non_advancing_events_witness :
    blocks_step 10 60 false ⟨[], 0, 0, 0, [], none, none, none, none⟩
        ⟨5, [], [], [], none, none⟩ 0 = ⟨[], 0, 0, 0, [], none, none, none, none⟩ ∧
    timeline_step 10 ⟨[], none, none, none, none, none⟩
        ⟨5, [], [], [], none, none⟩ 0 = ⟨[], none, none, none, none, none⟩ :=
  c10_non_advancing_events 10 60 false ⟨[], 0, 0, 0, [], none, none, none, none⟩
    ⟨[], none, none, none, none, none⟩ ⟨5, [], [], [], none, none⟩ 0 (by decide)

/-- C1 counterexample: with `idle_cutoff = max(10, 10) = 10`, two `app_active`
    events at t=0 and t=11 have raw gap 11 = cutoff + 1, yet the block builder
    attributes 10 seconds (the clamp) and the timeline builder emits a
    10-second segment — not zero as the claim states. -/
theorem c1_counterexample :
    ((build_blocks
      [⟨0, [], "app_active".toList, "a".toList, none, none⟩,
       ⟨11, [], "app_active".toList, "a".toList, none, none⟩]
      ⟨60, 10, false, false, 300, 30, false, false⟩ 11).map (·.total_seconds) = [10]) ∧
    ((build_timeline_segments
      [⟨0, [], "app_active".toList, "a".toList, none, none⟩,
       ⟨11, [], "app_active".toList, "a".toList, none, none⟩]
      ⟨60, 10, false, false, 300, 30, false, false⟩ 11).map (·.seconds) = [10]) := by
  decide

/-- C2 counterexample: with a `youtube.com` drop rule loaded, the read-path
    `decision_for` returns Allow for the extending domain `m.youtube.com`
    (no suffix walk), while the ingest-path `check_domain` does match it. -/
theorem c2_counterexample :
    decision_for [(("domain".toList, "youtube.com".toList), "drop".toList)]
      "tab_active".toList "m.youtube.com".toList = PrivacyDecision.allow ∧
    check_domain [(("domain".toList, "youtube.com".toList), "drop".toList)]
      "m.youtube.com".toList = some "drop".toList := by
  decide

/-- C3 counterexample: a stored `tab_active youtube.com` event matching a drop
    rule exactly is NOT suppressed on the timeline path: `list_events_between`
    keeps it with entity `__hidden__`, and it produces a 60-second timeline
    segment. -/
theorem c3_counterexample :
    decision_for [(("domain".toList, "youtube.com".toList), "drop".toList)]
      "tab_active".toList "youtube.com".toList = PrivacyDecision.drop ∧
    (build_timeline_segments
      (list_events_between [(("domain".toList, "youtube.com".toList), "drop".toList)]
        [⟨0, [], "tab_active".toList, "youtube.com".toList, none, none⟩])
      ⟨2700, 600, false, false, 300, 30, false, false⟩ 60).map
        (fun s => (s.entity, s.seconds)) = [("__hidden__".toList, 60)] := by
  decide

/-- C4 counterexample: a masked `tab_active` ingest whose payload carries
    `domain`, `exePath` and `pid` but no `app` field (with
    `store_exe_path = true`) persists a row that still contains `exePath` and
    `pid` — the mask branch removes them only when an `app` field is
    present. -/
theorem c4_counterexample :
    (post_event (fun _ => some 0) (fun _ => []) ⟨60, 10, true, true, 300, 30, false, false⟩ 0
      ⟨[], ⟨false, none, []⟩, [(("domain".toList, "x.com".toList), "mask".toList)]⟩
      ⟨1, "T".toList, "ext".toList, "tab_active".toList, some "x.com".toList, none,
        some "hello".toList⟩
      [("domain".toList, Jval.str "x.com".toList),
       ("exePath".toList, Jval.str "C:/x".toList),
       ("pid".toList, Jval.num 5)]).2.log.map
      (fun r => (r.entity, obj_contains_key r.payload "exePath".toList,
        obj_contains_key r.payload "pid".toList)) =
    [(some "__hidden__".toList, true, true)] := by
  decide

lemma obj_lookup_insert (o : Jobj) (k : Str) (v : Jval) :
    obj_lookup (obj_insert o k v) k = some v := by
  induction o with
  | nil => simp [obj_insert, obj_lookup]
  | cons p rest ih =>
    by_cases h : p.1 = k
    · simp [obj_insert, h, obj_lookup, List.find?]
    · simp only [obj_insert, if_neg h, obj_lookup, List.find?, decide_eq_false h]
      exact ih

lemma obj_lookup_insert_ne (o : Jobj) (k : Str) (v : Jval) (k' : Str) (h : k' ≠ k) :
    obj_lookup (obj_insert o k v) k' = obj_lookup o k' := by
  have hkk : ¬ k = k' := Ne.symm h
  induction o with
  | nil => simp [obj_insert, obj_lookup, List.find?, decide_eq_false hkk]
  | cons p rest ih =>
    by_cases hp : p.1 = k
    · subst hp
      simp [obj_insert, obj_lookup, List.find?, decide_eq_false hkk]
    · simp only [obj_insert, if_neg hp]
      by_cases hp' : p.1 = k'
      · simp [obj_lookup, List.find?, hp']
      · simp only [obj_lookup, List.find?, decide_eq_false hp'] at ih ⊢
        exact ih

lemma obj_contains_insert_ne (o : Jobj) (k : Str) (v : Jval) (k' : Str) (h : k' ≠ k) :
    obj_contains_key (obj_insert o k v) k' = obj_contains_key o k' := by
  have hkk : ¬ k = k' := Ne.symm h
  induction o with
  | nil => simp [obj_insert, obj_contains_key, hkk]
  | cons p rest ih =>
    by_cases hp : p.1 = k
    · subst hp
      simp [obj_insert, obj_contains_key, decide_eq_false hkk]
    · simp only [obj_insert, if_neg hp]
      simp only [obj_contains_key, List.any_cons] at ih ⊢
      rw [ih]

lemma obj_contains_remove_self (o : Jobj) (k : Str) :
    obj_contains_key (obj_remove o k) k = false := by
  induction o with
  | nil => simp [obj_remove, obj_contains_key]
  | cons p rest ih =>
    by_cases hp : p.1 = k
    · simpa [obj_remove, List.filter_cons, hp] using ih
    · simp only [obj_remove, List.filter_cons] at ih ⊢
      rw [if_pos (show decide (p.1 ≠ k) = true from decide_eq_true hp)]
      simp only [obj_contains_key, List.any_cons, decide_eq_false hp, Bool.false_or]
      exact ih

lemma obj_lookup_remove_ne (o : Jobj) (k k' : Str) (h : k' ≠ k) :
    obj_lookup (obj_remove o k) k' = obj_lookup o k' := by
  induction o with
  | nil => simp [obj_remove]
  | cons p rest ih =>
    by_cases hp : p.1 = k
    · have hne : ¬ p.1 = k' := by
        rw [hp]
        exact Ne.symm h
      simpa [obj_remove, List.filter_cons, hp, obj_lookup, List.find?,
        decide_eq_false hne, decide_eq_false (Ne.symm h)] using ih
    · by_cases hp' : p.1 = k'
      · have h1 : obj_remove (p :: rest) k = p :: obj_remove rest k := by
          simp [obj_remove, List.filter_cons, hp]
        rw [h1]
        simp [obj_lookup, List.find?, decide_eq_true hp']
      · simpa [obj_remove, List.filter_cons, hp, obj_lookup, List.find?,
          decide_eq_false hp'] using ih

lemma obj_contains_remove_ne (o : Jobj) (k k' : Str) (h : k' ≠ k) :
    obj_contains_key (obj_remove o k) k' = obj_contains_key o k' := by
  induction o with
  | nil => simp [obj_remove]
  | cons p rest ih =>
    by_cases hp : p.1 = k
    · have hne : ¬ p.1 = k' := by
        rw [hp]
        exact Ne.symm h
      simpa [obj_remove, List.filter_cons, hp, obj_contains_key, List.any_cons,
        decide_eq_false hne, decide_eq_false (Ne.symm h)] using ih
    · by_cases hp' : p.1 = k'
      · have h1 : obj_remove (p :: rest) k = p :: obj_remove rest k := by
          simp [obj_remove, List.filter_cons, hp]
        rw [h1]
        simp [obj_contains_key, List.any_cons, decide_eq_true hp']
      · simpa [obj_remove, List.filter_cons, hp, obj_contains_key, List.any_cons,
          decide_eq_false hp'] using ih

lemma obj_contains_remove_of_false (o : Jobj) (k k' : Str)
    (h : obj_contains_key o k' = false) :
    obj_contains_key (obj_remove o k) k' = false := by
  by_cases hk : k' = k
  · subst hk
    exact obj_contains_remove_self o k'
  · rw [obj_contains_remove_ne o k k' hk]
    exact h

lemma mask_domain_step_lookup_ne (o : Jobj) (k : Str) (h1 : k ≠ "domain".toList)
    (h2 : k ≠ "title".toList) :
    obj_lookup (mask_domain_step o) k = obj_lookup o k := by
  unfold mask_domain_step
  split_ifs with hd
  · rw [obj_lookup_remove_ne _ _ _ h2, obj_lookup_insert_ne _ _ _ _ h1]
  · rfl

lemma mask_domain_step_contains_ne (o : Jobj) (k : Str) (h1 : k ≠ "domain".toList)
    (h2 : k ≠ "title".toList) :
    obj_contains_key (mask_domain_step o) k = obj_contains_key o k := by
  unfold mask_domain_step
  split_ifs with hd
  · rw [obj_contains_remove_ne _ _ _ h2, obj_contains_insert_ne _ _ _ _ h1]
  · rfl

lemma mask_app_step_lookup_ne (o : Jobj) (k : Str) (h1 : k ≠ "app".toList)
    (h2 : k ≠ "title".toList) (h3 : k ≠ "exePath".toList) (h4 : k ≠ "pid".toList) :
    obj_lookup (mask_app_step o) k = obj_lookup o k := by
  unfold mask_app_step
  split_ifs with ha
  · rw [obj_lookup_remove_ne _ _ _ h4, obj_lookup_remove_ne _ _ _ h3,
      obj_lookup_remove_ne _ _ _ h2, obj_lookup_insert_ne _ _ _ _ h1]
  · rfl

lemma mask_app_step_contains_ne (o : Jobj) (k : Str) (h1 : k ≠ "app".toList)
    (h2 : k ≠ "title".toList) (h3 : k ≠ "exePath".toList) (h4 : k ≠ "pid".toList) :
    obj_contains_key (mask_app_step o) k = obj_contains_key o k := by
  unfold mask_app_step
  split_ifs with ha
  · rw [obj_contains_remove_ne _ _ _ h4, obj_contains_remove_ne _ _ _ h3,
      obj_contains_remove_ne _ _ _ h2, obj_contains_insert_ne _ _ _ _ h1]
  · rfl

lemma mask_payload_masked (o : Jobj) :
    obj_lookup (mask_payload o) "masked".toList = some (Jval.bool true) := by
  unfold mask_payload
  rw [mask_app_step_lookup_ne _ _ (by decide) (by decide) (by decide) (by decide),
    mask_domain_step_lookup_ne _ _ (by decide) (by decide)]
  exact obj_lookup_insert o _ _

lemma mask_payload_domain (o : Jobj) (h : obj_contains_key o "domain".toList = true) :
    obj_lookup (mask_payload o) "domain".toList = some (Jval.str "__hidden__".toList) := by
  unfold mask_payload
  have h1 : obj_contains_key (obj_insert o "masked".toList (Jval.bool true))
      "domain".toList = true := by
    rw [obj_contains_insert_ne _ _ _ _ (by decide)]
    exact h
  rw [mask_app_step_lookup_ne _ _ (by decide) (by decide) (by decide) (by decide)]
  unfold mask_domain_step
  rw [if_pos h1, obj_lookup_remove_ne _ _ _ (by decide)]
  exact obj_lookup_insert _ _ _

lemma mask_payload_app (o : Jobj) (h : obj_contains_key o "app".toList = true) :
    obj_lookup (mask_payload o) "app".toList = some (Jval.str "__hidden__".toList) ∧
    obj_contains_key (mask_payload o) "exePath".toList = false ∧
    obj_contains_key (mask_payload o) "pid".toList = false := by
  unfold mask_payload
  have h1 : obj_contains_key (mask_domain_step
      (obj_insert o "masked".toList (Jval.bool true))) "app".toList = true := by
    rw [mask_domain_step_contains_ne _ _ (by decide) (by decide),
      obj_contains_insert_ne _ _ _ _ (by decide)]
    exact h
  unfold mask_app_step
  rw [if_pos h1]
  refine ⟨?_, ?_, ?_⟩
  · rw [obj_lookup_remove_ne _ _ _ (by decide), obj_lookup_remove_ne _ _ _ (by decide),
      obj_lookup_remove_ne _ _ _ (by decide)]
    exact obj_lookup_insert _ _ _
  · rw [obj_contains_remove_ne _ _ _ (by decide)]
    exact obj_contains_remove_self _ _
  · exact obj_contains_remove_self _ _

lemma mask_payload_title (o : Jobj)
    (h : obj_contains_key o "domain".toList = true ∨
         obj_contains_key o "app".toList = true) :
    obj_contains_key (mask_payload o) "title".toList = false := by
  unfold mask_payload
  by_cases ha : obj_contains_key o "app".toList = true
  · have h1 : obj_contains_key (mask_domain_step
        (obj_insert o "masked".toList (Jval.bool true))) "app".toList = true := by
      rw [mask_domain_step_contains_ne _ _ (by decide) (by decide),
        obj_contains_insert_ne _ _ _ _ (by decide)]
      exact ha
    unfold mask_app_step
    rw [if_pos h1]
    exact obj_contains_remove_of_false _ _ _
      (obj_contains_remove_of_false _ _ _ (obj_contains_remove_self _ _))
  · have hd : obj_contains_key o "domain".toList = true := h.resolve_right ha
    have h1 : obj_contains_key (obj_insert o "masked".toList (Jval.bool true))
        "domain".toList = true := by
      rw [obj_contains_insert_ne _ _ _ _ (by decide)]
      exact hd
    have h2 : obj_contains_key (mask_domain_step
        (obj_insert o "masked".toList (Jval.bool true))) "title".toList = false := by
      unfold mask_domain_step
      rw [if_pos h1]
      exact obj_contains_remove_self _ _
    have h3 : obj_contains_key (mask_domain_step
        (obj_insert o "masked".toList (Jval.bool true))) "app".toList = false := by
      rw [mask_domain_step_contains_ne _ _ (by decide) (by decide),
        obj_contains_insert_ne _ _ _ _ (by decide)]
      revert ha
      cases obj_contains_key o "app".toList <;> simp
    unfold mask_app_step
    rw [if_neg (by rw [h3]; exact Bool.false_ne_true)]
    exact h2

lemma settings_strip_title_none (s : Settings) (p : Jobj) :
    (settings_strip s none p).1 = none := by
  unfold settings_strip
  split_ifs <;> rfl

lemma settings_strip_lookup_ne (s : Settings) (ti : Option Str) (p : Jobj) (k : Str)
    (h1 : k ≠ "title".toList) (h2 : k ≠ "exePath".toList) (h3 : k ≠ "pid".toList) :
    obj_lookup (settings_strip s ti p).2 k = obj_lookup p k := by
  unfold settings_strip
  split_ifs <;>
    simp only [obj_lookup_remove_ne _ _ _ h1, obj_lookup_remove_ne _ _ _ h2,
      obj_lookup_remove_ne _ _ _ h3]

lemma settings_strip_contains_false (s : Settings) (ti : Option Str) (p : Jobj) (k : Str)
    (h : obj_contains_key p k = false) :
    obj_contains_key (settings_strip s ti p).2 k = false := by
  unfold settings_strip
  split_ifs <;>
    first
    | exact h
    | exact obj_contains_remove_of_false _ _ _ h
    | exact obj_contains_remove_of_false _ _ _ (obj_contains_remove_of_false _ _ _ h)
    | exact obj_contains_remove_of_false _ _ _ (obj_contains_remove_of_false _ _ _
        (obj_contains_remove_of_false _ _ _ h))

/-- C4 (amended): for every ingested event to which a mask rule applies (and
    which passes validation and the pause check), the persisted row has entity
    `__hidden__`, a null title, and a payload with `masked: true`, the domain
    field (when present) replaced by `__hidden__`, the app field (when
    present) replaced by `__hidden__`; the `title` field is removed whenever a
    domain or app field is present, but `exePath` and `pid` are removed only
    when the payload contains an `app` field (not regardless of which fields
    it contains). -/
theorem c4_mask_persistence (parseTs : Str → Option Int) (fmtTs : Int → Str)
    (settings : Settings) (now : Int) (st : CoreState) (e : IngestEvent) (payload : Jobj)
    (hv : ¬ e.v < 1) (hts : (parseTs e.ts).isNone = false)
    (h3 : ¬ (e.event = "tab_active".toList ∧ post_event_entity e = none))
    (h4 : ¬ (e.event = "tab_audio_stop".toList ∧ post_event_entity e = none))
    (h5 : ¬ ((e.event = "app_active".toList ∨ e.event = "app_audio".toList ∨
        e.event = "app_audio_stop".toList) ∧ post_event_entity e = none))
    (h6 : (tracking_is_paused parseTs st.tracking now (fmtTs now)).1 = false)
    (h7 : privacy_action_for_event st.rules e = some "mask".toList) :
    ∃ row : StoredEvent,
      post_event parseTs fmtTs settings now st e payload =
        (.ok, ⟨st.log ++ [row],
          (tracking_is_paused parseTs st.tracking now (fmtTs now)).2, st.rules⟩) ∧
      row.entity = some "__hidden__".toList ∧
      row.title = none ∧
      obj_lookup row.payload "masked".toList = some (Jval.bool true) ∧
      (obj_contains_key payload "domain".toList = true →
        obj_lookup row.payload "domain".toList = some (Jval.str "__hidden__".toList)) ∧
      (obj_contains_key payload "app".toList = true →
        obj_lookup row.payload "app".toList = some (Jval.str "__hidden__".toList) ∧
        obj_contains_key row.payload "exePath".toList = false ∧
        obj_contains_key row.payload "pid".toList = false) ∧
      ((obj_contains_key payload "domain".toList = true ∨
        obj_contains_key payload "app".toList = true) →
        obj_contains_key row.payload "title".toList = false) := by
  refine ⟨⟨e.ts, e.source, e.event, some "__hidden__".toList,
    (settings_strip settings none (mask_payload payload)).1,
    (settings_strip settings none (mask_payload payload)).2⟩, ?_, rfl, ?_, ?_, ?_, ?_, ?_⟩
  · simp only [post_event]
    rw [if_neg hv]
    rw [if_neg (show ¬ (parseTs e.ts).isNone = true by rw [hts]; simp)]
    rw [if_neg h3, if_neg h4, if_neg h5]
    rw [if_neg (show ¬ (tracking_is_paused parseTs st.tracking now (fmtTs now)).1 = true by
      rw [h6]; simp)]
    rw [h7]
    rw [if_neg (show ¬ (some "mask".toList = some "drop".toList) by decide)]
    rw [if_pos rfl]
  · exact settings_strip_title_none settings (mask_payload payload)
  · rw [settings_strip_lookup_ne _ _ _ _ (by decide) (by decide) (by decide)]
    exact mask_payload_masked payload
  · intro hd
    rw [settings_strip_lookup_ne _ _ _ _ (by decide) (by decide) (by decide)]
    exact mask_payload_domain payload hd
  · intro ha
    refine ⟨?_, ?_, ?_⟩
    · rw [settings_strip_lookup_ne _ _ _ _ (by decide) (by decide) (by decide)]
      exact (mask_payload_app payload ha).1
    · exact settings_strip_contains_false _ _ _ _ (mask_payload_app payload ha).2.1
    · exact settings_strip_contains_false _ _ _ _ (mask_payload_app payload ha).2.2
  · intro hda
    exact settings_strip_contains_false _ _ _ _ (mask_payload_title payload hda)

theorem c4_mask_persistence_witness :
    ∃ row : StoredEvent,
      post_event (fun _ => some 0) (fun _ => []) ⟨60, 10, true, true, 300, 30, false, false⟩ 0
        ⟨[], ⟨false, none, []⟩, [(("domain".toList, "x.com".toList), "mask".toList)]⟩
        ⟨1, "T".toList, "ext".toList, "tab_active".toList, some "x.com".toList, none,
          some "hello".toList⟩
        [("domain".toList, Jval.str "x.com".toList)] =
        (.ok, ⟨([] : List StoredEvent) ++ [row],
          (tracking_is_paused (fun _ => some 0) ⟨false, none, []⟩ 0
            ((fun (_ : Int) => ([] : Str)) 0)).2,
          [(("domain".toList, "x.com".toList), "mask".toList)]⟩) ∧
      row.entity = some "__hidden__".toList ∧
      row.title = none ∧
      obj_lookup row.payload "masked".toList = some (Jval.bool true) ∧
      (obj_contains_key [("domain".toList, Jval.str "x.com".toList)] "domain".toList = true →
        obj_lookup row.payload "domain".toList = some (Jval.str "__hidden__".toList)) ∧
      (obj_contains_key [("domain".toList, Jval.str "x.com".toList)] "app".toList = true →
        obj_lookup row.payload "app".toList = some (Jval.str "__hidden__".toList) ∧
        obj_contains_key row.payload "exePath".toList = false ∧
        obj_contains_key row.payload "pid".toList = false) ∧
      ((obj_contains_key [("domain".toList, Jval.str "x.com".toList)] "domain".toList = true ∨
        obj_contains_key [("domain".toList, Jval.str "x.com".toList)] "app".toList = true) →
        obj_contains_key row.payload "title".toList = false) :=
  c4_mask_persistence (fun _ => some 0) (fun _ => []) ⟨60, 10, true, true, 300, 30, false, false⟩
    0 ⟨[], ⟨false, none, []⟩, [(("domain".toList, "x.com".toList), "mask".toList)]⟩
    ⟨1, "T".toList, "ext".toList, "tab_active".toList, some "x.com".toList, none,
      some "hello".toList⟩
    [("domain".toList, Jval.str "x.com".toList)]
    (by decide) rfl (by decide) (by decide) (by decide) rfl (by decide)

/-- C3 (amended): under a drop rule, the `/events` tail and Now read paths
    suppress a matching event entirely (`apply_privacy_to_event` returns none
    and the event vanishes from the tail), but the range read path feeding
    timeline/blocks/export (`list_events_between`) keeps the event — with
    entity `__hidden__` and a cleared title — so it still yields timeline
    segments and block-bucket seconds (attributed to `__hidden__`). -/
theorem c3_drop_read_paths :
    (∀ (privacy : PrivacyIndex) (e : EventRecord) (ent : Str),
      e.entity = some ent → decision_for privacy e.event ent = .drop →
      apply_privacy_to_event e privacy = none) ∧
    (∀ (privacy : PrivacyIndex) (rows1 rows2 : List EventRecord) (r : EventRecord)
      (ent : Str), r.entity = some ent → decision_for privacy r.event ent = .drop →
      list_events_tail privacy (rows1 ++ r :: rows2) =
        list_events_tail privacy (rows1 ++ rows2)) ∧
    (∀ (privacy : PrivacyIndex) (rows : List EventForBlocks),
      (list_events_between privacy rows).length = rows.length) ∧
    (∀ (privacy : PrivacyIndex) (rows : List EventForBlocks) (r : EventForBlocks),
      r ∈ rows → decision_for privacy r.event r.entity = .drop →
      ({ r with entity := "__hidden__".toList, title := none } : EventForBlocks) ∈
        list_events_between privacy rows) := by
  have hA : ∀ (privacy : PrivacyIndex) (e : EventRecord) (ent : Str),
      e.entity = some ent → decision_for privacy e.event ent = .drop →
      apply_privacy_to_event e privacy = none := by
    intro privacy e ent he hdec
    simp [apply_privacy_to_event, he, hdec]
  refine ⟨hA, ?_, ?_, ?_⟩
  · intro privacy rows1 rows2 r ent he hdec
    simp [list_events_tail, List.filterMap_append, List.filterMap_cons,
      hA privacy r ent he hdec]
  · intro privacy rows
    simp [list_events_between]
  · intro privacy rows r hr hdec
    simp only [list_events_between, List.mem_map]
    exact ⟨r, hr, by simp [hdec]⟩

theorem c3_drop_read_paths_witness :
    apply_privacy_to_event
      ⟨1, [], [], "tab_active".toList, some "youtube.com".toList, none, none⟩
      [(("domain".toList, "youtube.com".toList), "drop".toList)] = none ∧
    ({ (⟨0, [], "tab_active".toList, "youtube.com".toList, none, none⟩ : EventForBlocks)
        with entity := "__hidden__".toList, title := none } : EventForBlocks) ∈
      list_events_between [(("domain".toList, "youtube.com".toList), "drop".toList)]
        [⟨0, [], "tab_active".toList, "youtube.com".toList, none, none⟩] :=
  ⟨c3_drop_read_paths.1 [(("domain".toList, "youtube.com".toList), "drop".toList)]
    ⟨1, [], [], "tab_active".toList, some "youtube.com".toList, none, none⟩
    "youtube.com".toList rfl (by decide),
   c3_drop_read_paths.2.2.2 [(("domain".toList, "youtube.com".toList), "drop".toList)]
    [⟨0, [], "tab_active".toList, "youtube.com".toList, none, none⟩]
    ⟨0, [], "tab_active".toList, "youtube.com".toList, none, none⟩
    (by decide) (by decide)⟩

lemma split_once_eq_none_iff (s : Str) (c : Char) :
    split_once s c = none ↔ s.contains c = false := by
  induction s with
  | nil => simp [split_once]
  | cons d rest ih =>
    by_cases hd : d = c
    · simp [split_once, hd, List.contains_cons]
    · have hcd : (c == d) = false := by
        rw [beq_eq_false_iff_ne]
        exact Ne.symm hd
      simp only [split_once, if_neg hd, List.contains_cons, hcd, Bool.false_or,
        Option.map_eq_none']
      exact ih

lemma split_once_length (s : Str) (c : Char) (p : Str × Str)
    (h : split_once s c = some p) : p.1.length + 1 + p.2.length = s.length := by
  induction s generalizing p with
  | nil => simp [split_once] at h
  | cons d rest ih =>
    by_cases hd : d = c
    · simp only [split_once, if_pos hd] at h
      cases h
      simp only [List.length_nil, List.length_cons]
      omega
    · simp only [split_once, if_neg hd] at h
      rcases Option.map_eq_some'.mp h with ⟨q, hq, hpq⟩
      subst hpq
      have := ih q hq
      simp only [List.length_cons]
      omega

lemma split_once_append_sep (q v : Str) :
    split_once (q ++ '.' :: v) '.' =
      match split_once q '.' with
      | some p => some (p.1, p.2 ++ '.' :: v)
      | none => some (q, v) := by
  induction q with
  | nil => simp [split_once]
  | cons d rest ih =>
    by_cases hd : d = '.'
    · simp [split_once, hd]
    · simp only [List.cons_append, split_once, if_neg hd, List.append_eq]
      rw [ih]
      cases hsq : split_once rest '.' with
      | none => simp [hsq]
      | some p => simp [hsq]

lemma contains_append_char (a b : Str) (c : Char) :
    (a ++ b).contains c = (a.contains c || b.contains c) := by
  induction a with
  | nil => simp
  | cons d rest ih => simp [List.contains_cons, ih, Bool.or_assoc]

lemma idx_get_singleton (key : Str × Str) (a : Str) (k : Str × Str) :
    idx_get [(key, a)] k = if key = k then some a else none := by
  by_cases h : key = k <;> simp [idx_get, List.find?, h]

lemma check_domain_loop_suffix (v a : Str) (hv : v.contains '.' = true) :
    ∀ (fuel : Nat) (q : Str), (q ++ '.' :: v).length ≤ fuel →
      check_domain_loop [(("domain".toList, v), a)] fuel (q ++ '.' :: v) = some a := by
  intro fuel
  induction fuel with
  | zero =>
    intro q h
    exfalso
    simp [List.length_append] at h
  | succ f ih =>
    intro q hlen
    have hvne : v ≠ [] := by
      intro hv0
      rw [hv0] at hv
      simp at hv
    have hcand_ne : ¬ v = q ++ '.' :: v := by
      intro hh
      have := congrArg List.length hh
      simp only [List.length_append, List.length_cons] at this
      omega
    have hlook : idx_get [(("domain".toList, v), a)]
        ("domain".toList, q ++ '.' :: v) = none := by
      rw [idx_get_singleton]
      rw [if_neg (by simp [Prod.ext_iff, hcand_ne])]
    simp only [check_domain_loop, hlook]
    rw [split_once_append_sep]
    cases hsq : split_once q '.' with
    | none =>
      simp only [hsq, hv, Bool.not_true, Bool.false_eq_true, if_false]
      have hvlen : 1 ≤ v.length := by
        cases v with
        | nil => exact absurd rfl hvne
        | cons x xs => simp
      have hflen : v.length ≤ f := by
        simp only [List.length_append, List.length_cons] at hlen
        omega
      cases f with
      | zero => omega
      | succ f2 =>
        have hlook2 : idx_get [(("domain".toList, v), a)] ("domain".toList, v) = some a := by
          rw [idx_get_singleton, if_pos rfl]
        simp only [check_domain_loop, hlook2]
    | some p =>
      have hrest : (p.2 ++ '.' :: v).contains '.' = true := by
        rw [contains_append_char]
        simp [List.contains_cons]
      simp only [hsq, hrest, Bool.not_true, Bool.false_eq_true, if_false]
      have hql := split_once_length q '.' p hsq
      have hlen2 : (p.2 ++ '.' :: v).length ≤ f := by
        simp only [List.length_append, List.length_cons] at hlen ⊢
        omega
      exact ih p.2 hlen2

lemma check_domain_loop_no_dot (v a : Str) (hv : v.contains '.' = false) :
    ∀ (fuel : Nat) (cand : Str), cand.contains '.' = true →
      check_domain_loop [(("domain".toList, v), a)] fuel cand = none := by
  intro fuel
  induction fuel with
  | zero =>
    intro cand hc
    rfl
  | succ f ih =>
    intro cand hc
    have hne : ¬ ("domain".toList, v) = ("domain".toList, cand) := by
      intro hh
      have hvc : v = cand := (Prod.ext_iff.mp hh).2
      rw [hvc, hc] at hv
      exact absurd hv (by simp)
    have hlook : idx_get [(("domain".toList, v), a)] ("domain".toList, cand) = none := by
      rw [idx_get_singleton, if_neg hne]
    simp only [check_domain_loop, hlook]
    cases hsq : split_once cand '.' with
    | none => simp only [hsq]
    | some p =>
      simp only [hsq]
      by_cases hp2 : p.2.contains '.' = true
      · simp only [hp2, Bool.not_true, Bool.false_eq_true, if_false]
        exact ih p.2 hp2
      · have hp2f : p.2.contains '.' = false := by
          revert hp2
          cases p.2.contains '.' <;> simp
        simp only [hp2f, Bool.not_false, if_true]

/-- C2 (amended): suffix matching lives only on the ingest path — for a loaded
    domain rule (v, a) with a dotted value, the ingest-side `check_domain`
    matches any lowercased entity extending v by leading labels, and it never
    matches a dotless (bare-TLD) rule value against a dotted entity; the
    read-path `decision_for`, by contrast, returns a non-Allow decision only
    when the trimmed, lowercased entity is exactly the rule value — entities
    that merely extend v by leading labels are Allowed on reads. -/
theorem c2_suffix_only_on_ingest :
    (∀ (v a q d : Str), v.contains '.' = true → lowerStr d = q ++ '.' :: v →
      check_domain [(("domain".toList, v), a)] d = some a) ∧
    (∀ (v a d : Str), v.contains '.' = false → (lowerStr d).contains '.' = true →
      check_domain [(("domain".toList, v), a)] d = none) ∧
    (∀ (v a ent event : Str), privacy_kind_for_event event = "domain".toList →
      decision_for [(("domain".toList, v), a)] event ent ≠ .allow →
      lowerStr (trimStr ent) = v) := by
  refine ⟨?_, ?_, ?_⟩
  · intro v a q d hv hd
    have hcont : (q ++ '.' :: v).contains '.' = true := by
      rw [contains_append_char]
      simp [List.contains_cons]
    simp only [check_domain, hd, hcont, Bool.not_true, Bool.false_eq_true, if_false]
    exact check_domain_loop_suffix v a hv _ q le_rfl
  · intro v a d hv hd
    simp only [check_domain, hd, Bool.not_true, Bool.false_eq_true, if_false]
    exact check_domain_loop_no_dot v a hv _ _ hd
  · intro v a ent event hkind hne
    by_cases hveq : v = lowerStr (trimStr ent)
    · exact hveq.symm
    · exfalso
      apply hne
      have hlook : idx_get [(("domain".toList, v), a)]
          ("domain".toList, lowerStr (trimStr ent)) = none := by
        rw [idx_get_singleton, if_neg (by simp [Prod.ext_iff, hveq])]
      simp only [decision_for, hkind]
      rw [if_pos trivial, hlook]

theorem c2_suffix_only_on_ingest_witness :
    check_domain [(("domain".toList, "youtube.com".toList), "drop".toList)]
      "m.youtube.com".toList = some "drop".toList :=
  c2_suffix_only_on_ingest.1 "youtube.com".toList "drop".toList "m".toList
    "m.youtube.com".toList (by decide) (by decide)

lemma resolve_entity_isSome (st : BlocksWalkState) (t : Int) :
    (resolve_entity st t).isSome = (st.current_app.isSome || st.current_domain.isSome) := by
  unfold resolve_entity
  cases st.current_app <;> cases st.current_domain <;> cases st.current_domain_ts <;>
    dsimp only <;>
    first
    | (split_ifs <;> simp)
    | simp

lemma timeline_resolve_isSome (st : TimelineWalkState) (t : Int) :
    (timeline_resolve st t).isSome = (st.current_app.isSome || st.current_domain.isSome) := by
  unfold timeline_resolve
  cases st.current_app <;> cases st.current_domain <;> cases st.current_domain_ts <;>
    dsimp only <;>
    first
    | (split_ifs <;> simp)
    | simp

lemma blocks_update_registers_parts (st : BlocksWalkState) (cur : EventForBlocks) :
    (blocks_update_registers st cur).blocks = st.blocks ∧
    (blocks_update_registers st cur).active_seconds = st.active_seconds ∧
    (blocks_update_registers st cur).bucket = st.bucket ∧
    (blocks_update_registers st cur).current_start = st.current_start ∧
    (blocks_update_registers st cur).current_end = st.current_end := by
  unfold blocks_update_registers
  split_ifs <;> exact ⟨rfl, rfl, rfl, rfl, rfl⟩

lemma bucketSum_add (bucket : List (BucketKey × Int)) (k : BucketKey) (v : Int) :
    bucketSum (bucketAdd bucket k v) = bucketSum bucket + v := by
  induction bucket with
  | nil => simp [bucketAdd, bucketSum]
  | cons p rest ih =>
    by_cases hp : p.1 = k
    · simp [bucketAdd, hp, bucketSum]
      omega
    · simp only [bucketAdd, if_neg hp, bucketSum, List.map_cons, List.sum_cons] at ih ⊢
      omega

lemma bucketAdd_pos (bucket : List (BucketKey × Int)) (k : BucketKey) (v : Int)
    (hv : 0 < v) (h : ∀ kv ∈ bucket, 0 < kv.2) :
    ∀ kv ∈ bucketAdd bucket k v, 0 < kv.2 := by
  induction bucket with
  | nil =>
    intro kv hkv
    simp only [bucketAdd, List.mem_singleton] at hkv
    subst hkv
    exact hv
  | cons p rest ih =>
    by_cases hp : p.1 = k
    · intro kv hkv
      simp only [bucketAdd, if_pos hp] at hkv
      rcases List.mem_cons.mp hkv with h1 | h1
      · subst h1
        have := h p (List.mem_cons_self _ _)
        simp only []
        omega
      · exact h kv (List.mem_cons_of_mem _ h1)
    · intro kv hkv
      simp only [bucketAdd, if_neg hp] at hkv
      rcases List.mem_cons.mp hkv with h1 | h1
      · subst h1
        exact h p (List.mem_cons_self _ _)
      · exact ih (fun x hx => h x (List.mem_cons_of_mem _ hx)) kv h1

lemma slice_loop_spec (bl : Int) (stt : Bool) (hbl : 0 < bl) :
    ∀ (fuel : Nat) (st : BlocksWalkState) (ss seg : Int),
    0 ≤ seg → seg ≤ (fuel : Int) → 0 ≤ st.active_seconds → st.active_seconds < bl →
    (walk_attributed (slice_loop bl stt fuel st ss seg) =
      walk_attributed st +
        (if (st.current_app.isSome || st.current_domain.isSome) = true then seg else 0)) ∧
    0 ≤ (slice_loop bl stt fuel st ss seg).active_seconds ∧
    (slice_loop bl stt fuel st ss seg).active_seconds < bl ∧
    (slice_loop bl stt fuel st ss seg).current_app = st.current_app ∧
    (slice_loop bl stt fuel st ss seg).current_domain = st.current_domain := by
  intro fuel
  induction fuel with
  | zero =>
    intro st ss seg h0 hf ha0 ha1
    have hseg : seg = 0 := by
      simp only [Nat.cast_zero] at hf
      omega
    subst hseg
    simp only [slice_loop]
    refine ⟨?_, ha0, ha1, by trivial, by trivial⟩
    split <;> omega
  | succ fuel ih =>
    intro st ss seg h0 hf ha0 ha1
    by_cases hseg : seg ≤ 0
    · have hz : seg = 0 := le_antisymm hseg h0
      subst hz
      simp only [slice_loop, if_pos (le_refl (0 : Int))]
      refine ⟨?_, ha0, ha1, by trivial, by trivial⟩
      split <;> omega
    · have hsegpos : 0 < seg := lt_of_not_le hseg
      have hrem : 0 < bl - st.active_seconds := by omega
      have htake : 0 < min seg (bl - st.active_seconds) := lt_min hsegpos hrem
      have htake_le_seg : min seg (bl - st.active_seconds) ≤ seg := min_le_left _ _
      have htake_le_rem : min seg (bl - st.active_seconds) ≤ bl - st.active_seconds :=
        min_le_right _ _
      simp only [slice_loop, if_neg hseg, if_neg (not_le.mpr htake)]
      cases hres : resolve_entity st ss with
      | none =>
        have hcond : (st.current_app.isSome || st.current_domain.isSome) = false := by
          have h1 := resolve_entity_isSome st ss
          rw [hres] at h1
          exact h1.symm
        dsimp only
        rw [if_neg (not_le.mpr ha1)]
        have hfuel2 : seg - min seg (bl - st.active_seconds) ≤ (fuel : Int) := by
          push_cast at hf ⊢
          omega
        obtain ⟨hw, hb0, hb1, hc1, hc2⟩ :=
          ih st ss (seg - min seg (bl - st.active_seconds)) (by omega) hfuel2 ha0 ha1
        refine ⟨?_, hb0, hb1, hc1, hc2⟩
        rw [hw, hcond]
        simp
      | some trip =>
        obtain ⟨kind, entity, title⟩ := trip
        have hcond : (st.current_app.isSome || st.current_domain.isSome) = true := by
          have h1 := resolve_entity_isSome st ss
          rw [hres] at h1
          exact h1.symm
        dsimp only
        have hfuel2 : seg - min seg (bl - st.active_seconds) ≤ (fuel : Int) := by
          push_cast at hf ⊢
          omega
        by_cases hfin : bl ≤ st.active_seconds + seg ⊓ (bl - st.active_seconds)
        · rw [if_pos hfin]
          obtain ⟨hw, hb0, hb1, hc1, hc2⟩ :=
            ih { blocks := st.blocks ++ [finalize_block st.current_start
                    (ss + seg ⊓ (bl - st.active_seconds))
                    (bucketAdd st.bucket (bucketKeyFor stt kind entity title)
                      (seg ⊓ (bl - st.active_seconds)))
                    (st.active_seconds + seg ⊓ (bl - st.active_seconds))]
                 current_start := ss + seg ⊓ (bl - st.active_seconds)
                 current_end := ss + seg ⊓ (bl - st.active_seconds)
                 active_seconds := 0
                 bucket := []
                 current_app := st.current_app
                 current_domain := st.current_domain
                 current_domain_title := st.current_domain_title
                 current_domain_ts := st.current_domain_ts }
              (ss + seg ⊓ (bl - st.active_seconds))
              (seg - seg ⊓ (bl - st.active_seconds))
              (by omega) hfuel2 (le_refl 0) hbl
          refine ⟨?_, hb0, hb1, by rw [hc1], by rw [hc2]⟩
          rw [hw]
          dsimp only
          simp only [hcond, if_true, walk_attributed, finalize_block, List.map_append,
            List.sum_append, List.map_cons, List.sum_cons, List.map_nil, List.sum_nil]
          omega
        · rw [if_neg hfin]
          obtain ⟨hw, hb0, hb1, hc1, hc2⟩ :=
            ih { blocks := st.blocks
                 current_start := st.current_start
                 current_end := ss + seg ⊓ (bl - st.active_seconds)
                 active_seconds := st.active_seconds + seg ⊓ (bl - st.active_seconds)
                 bucket := bucketAdd st.bucket (bucketKeyFor stt kind entity title)
                   (seg ⊓ (bl - st.active_seconds))
                 current_app := st.current_app
                 current_domain := st.current_domain
                 current_domain_title := st.current_domain_title
                 current_domain_ts := st.current_domain_ts }
              (ss + seg ⊓ (bl - st.active_seconds))
              (seg - seg ⊓ (bl - st.active_seconds))
              (by omega) hfuel2 (by dsimp only; omega) (by dsimp only; omega)
          refine ⟨?_, hb0, hb1, by rw [hc1], by rw [hc2]⟩
          rw [hw]
          dsimp only
          simp only [hcond, if_true, walk_attributed]
          omega

lemma blocks_update_registers_walk (st : BlocksWalkState) (cur : EventForBlocks) :
    walk_attributed (blocks_update_registers st cur) = walk_attributed st := by
  unfold blocks_update_registers walk_attributed
  split_ifs <;> rfl

lemma walk_attributed_close_reset (s : BlocksWalkState) (nt : Int)
    (ha : 0 ≤ s.active_seconds) :
    walk_attributed
      { (if 0 < s.active_seconds then
          { s with blocks := s.blocks ++ [finalize_block s.current_start s.current_end
              s.bucket s.active_seconds] }
        else s) with
        current_start := nt, current_end := nt, bucket := [], active_seconds := 0,
        current_app := none, current_domain := none, current_domain_title := none,
        current_domain_ts := none } = walk_attributed s := by
  by_cases h : 0 < s.active_seconds
  · rw [if_pos h]
    simp only [walk_attributed, finalize_block, List.map_append, List.sum_append,
      List.map_cons, List.sum_cons, List.map_nil, List.sum_nil]
    try omega
  · rw [if_neg h]
    have hz : s.active_seconds = 0 := le_antisymm (not_lt.mp h) ha
    simp only [walk_attributed, hz]
    try omega

lemma timeline_update_registers_out (st : TimelineWalkState) (cur : EventForBlocks) :
    (timeline_update_registers st cur).out = st.out := by
  unfold timeline_update_registers
  split_ifs <;> rfl

lemma push_or_merge_total (out : List SegmentAcc) (seg : SegmentAcc) :
    segs_total (push_or_merge_segment out seg) =
      segs_total out + (if seg.stop ≤ seg.start then 0 else seg.stop - seg.start) := by
  unfold push_or_merge_segment
  by_cases h : seg.stop ≤ seg.start
  · simp [h]
  · rw [if_neg h, if_neg h]
    cases out with
    | nil => simp [segs_total]
    | cons last rest =>
      dsimp only
      by_cases hm : last.kind = seg.kind ∧ last.entity = seg.entity ∧
          last.title = seg.title ∧ last.activity = seg.activity ∧ last.stop = seg.start
      · rw [if_pos hm]
        simp only [segs_total, List.map_cons, List.sum_cons]
        have := hm.2.2.2.2
        omega
      · rw [if_neg hm]
        simp only [segs_total, List.map_cons, List.sum_cons]
        omega

/-- C1 (amended): in the focus walk of both builders (idle cutoff c), an event
    step with raw gap g > 0 attributes exactly min(g, c) seconds whenever an
    app or domain register is set after the event's register update (and zero
    when neither is set): a gap equal to c attributes the full gap, but a gap
    strictly greater than c still attributes c seconds — the clamp — before
    the registers are cleared and the running block is closed; only the g − c
    seconds beyond the clamp go unattributed. -/
theorem c1_gap_clamp_attribution (ic bl : Int) (stt : Bool) (st : BlocksWalkState)
    (tst : TimelineWalkState) (cur : EventForBlocks) (next_ts : Int)
    (hic : 0 < ic) (hbl : 0 < bl) (hg : cur.ts < next_ts)
    (ha0 : 0 ≤ st.active_seconds) (ha1 : st.active_seconds < bl) :
    (walk_attributed (blocks_step ic bl stt st cur next_ts) =
      walk_attributed st +
        (if ((blocks_update_registers st cur).current_app.isSome ||
            (blocks_update_registers st cur).current_domain.isSome) = true
          then min (next_ts - cur.ts) ic else 0)) ∧
    (ic < next_ts - cur.ts →
      (blocks_step ic bl stt st cur next_ts).current_app = none ∧
      (blocks_step ic bl stt st cur next_ts).current_domain = none ∧
      (blocks_step ic bl stt st cur next_ts).current_domain_title = none ∧
      (blocks_step ic bl stt st cur next_ts).current_domain_ts = none) ∧
    (segs_total (timeline_step ic tst cur next_ts).out =
      segs_total tst.out +
        (if ((timeline_update_registers tst cur).current_app.isSome ||
            (timeline_update_registers tst cur).current_domain.isSome) = true
          then min (next_ts - cur.ts) ic else 0)) ∧
    (ic < next_ts - cur.ts →
      (timeline_step ic tst cur next_ts).current_app = none ∧
      (timeline_step ic tst cur next_ts).current_domain = none) := by
  have hraw : 0 < next_ts - cur.ts := by omega
  have hsegpos : 0 < min (next_ts - cur.ts) ic := lt_min hraw hic
  have hup := blocks_update_registers_parts st cur
  obtain ⟨hw, hb0, hb1, hc1, hc2⟩ := slice_loop_spec bl stt hbl
    (min (next_ts - cur.ts) ic).toNat (blocks_update_registers st cur) cur.ts
    (min (next_ts - cur.ts) ic) (le_of_lt hsegpos) (Int.self_le_toNat _)
    (by rw [hup.2.1]; exact ha0) (by rw [hup.2.1]; exact ha1)
  refine ⟨?_, ?_, ?_, ?_⟩
  · simp only [blocks_step, if_neg (not_le.mpr hg), if_neg (not_le.mpr hsegpos)]
    by_cases hgap : ic < next_ts - cur.ts
    · rw [if_pos hgap]
      rw [walk_attributed_close_reset _ _ hb0]
      rw [hw, blocks_update_registers_walk]
    · rw [if_neg hgap]
      rw [hw, blocks_update_registers_walk]
  · intro hgap
    simp only [blocks_step, if_neg (not_le.mpr hg), if_neg (not_le.mpr hsegpos),
      if_pos hgap]
    exact ⟨by trivial, by trivial, by trivial, by trivial⟩
  · simp only [timeline_step, if_neg (not_le.mpr hg), if_neg (not_le.mpr hsegpos)]
    cases hres : timeline_resolve (timeline_update_registers tst cur) cur.ts with
    | none =>
      have hcond : ((timeline_update_registers tst cur).current_app.isSome ||
          (timeline_update_registers tst cur).current_domain.isSome) = false := by
        have h1 := timeline_resolve_isSome (timeline_update_registers tst cur) cur.ts
        rw [hres] at h1
        exact h1.symm
      rw [hcond]
      dsimp only
      by_cases hgap : ic < next_ts - cur.ts
      · rw [if_pos hgap]
        simp [timeline_update_registers_out]
      · rw [if_neg hgap]
        simp [timeline_update_registers_out]
    | some trip =>
      obtain ⟨kind, entity, title⟩ := trip
      have hcond : ((timeline_update_registers tst cur).current_app.isSome ||
          (timeline_update_registers tst cur).current_domain.isSome) = true := by
        have h1 := timeline_resolve_isSome (timeline_update_registers tst cur) cur.ts
        rw [hres] at h1
        exact h1.symm
      rw [hcond]
      dsimp only
      by_cases hgap : ic < next_ts - cur.ts
      · rw [if_pos hgap]
        dsimp only
        rw [push_or_merge_total]
        dsimp only
        rw [if_neg (by omega), timeline_update_registers_out]
        simp
      · rw [if_neg hgap]
        dsimp only
        rw [push_or_merge_total]
        dsimp only
        rw [if_neg (by omega), timeline_update_registers_out]
        simp
  · intro hgap
    simp only [timeline_step, if_neg (not_le.mpr hg), if_neg (not_le.mpr hsegpos),
      if_pos hgap]
    cases hres : timeline_resolve (timeline_update_registers tst cur) cur.ts with
    | none => exact ⟨by trivial, by trivial⟩
    | some trip =>
      obtain ⟨kind, entity, title⟩ := trip
      exact ⟨by trivial, by trivial⟩

theorem c1_gap_clamp_attribution_witness :
    walk_attributed (blocks_step 10 60 false ⟨[], 0, 0, 0, [], none, none, none, none⟩
        ⟨0, [], "app_active".toList, "a".toList, none, none⟩ 11) =
      walk_attributed (⟨[], 0, 0, 0, [], none, none, none, none⟩ : BlocksWalkState) +
        (if (((blocks_update_registers ⟨[], 0, 0, 0, [], none, none, none, none⟩
            ⟨0, [], "app_active".toList, "a".toList, none, none⟩).current_app.isSome ||
            (blocks_update_registers ⟨[], 0, 0, 0, [], none, none, none, none⟩
            ⟨0, [], "app_active".toList, "a".toList, none, none⟩).current_domain.isSome) = true)
          then min (11 - (0 : Int)) 10 else 0) :=
  (c1_gap_clamp_attribution 10 60 false ⟨[], 0, 0, 0, [], none, none, none, none⟩
    ⟨[], none, none, none, none, none⟩ ⟨0, [], "app_active".toList, "a".toList, none, none⟩
    11 (by decide) (by decide) (by decide) (by decide) (by decide)).1

lemma sum_take_le_sum (l : List Int) (h : ∀ x ∈ l, 0 ≤ x) (n : Nat) :
    (l.take n).sum ≤ l.sum := by
  conv_rhs => rw [← List.take_append_drop n l]
  rw [List.sum_append]
  have h2 : 0 ≤ (l.drop n).sum :=
    List.sum_nonneg (fun x hx => h x (List.mem_of_mem_drop hx))
  omega

lemma sorted_map_seconds_sum (bucket : List (BucketKey × Int)) :
    ((List.insertionSort topItemGE (bucketToItems bucket)).map (·.seconds)).sum =
      bucketSum bucket := by
  have hperm := List.perm_insertionSort topItemGE (bucketToItems bucket)
  rw [(hperm.map (·.seconds)).sum_eq]
  unfold bucketToItems bucketSum
  rw [List.map_map]
  rfl

lemma sorted_map_seconds_nonneg (bucket : List (BucketKey × Int))
    (hpos : ∀ kv ∈ bucket, 0 < kv.2) :
    ∀ x ∈ (List.insertionSort topItemGE (bucketToItems bucket)).map (·.seconds), 0 ≤ x := by
  intro x hx
  rcases List.mem_map.mp hx with ⟨it, hit, hxeq⟩
  have hit2 : it ∈ bucketToItems bucket :=
    (List.perm_insertionSort topItemGE (bucketToItems bucket)).mem_iff.mp hit
  rcases List.mem_map.mp hit2 with ⟨kv, hkv, hiteq⟩
  subst hiteq hxeq
  exact le_of_lt (hpos kv hkv)

lemma finalize_top_items_sum (start stop : Int) (bucket : List (BucketKey × Int))
    (total : Int) :
    top_items_sum (finalize_block start stop bucket total) =
      (((List.insertionSort topItemGE (bucketToItems bucket)).map (·.seconds)).take 5).sum := by
  unfold top_items_sum finalize_block
  rw [← List.map_take]

lemma finalize_block_le (start stop : Int) (bucket : List (BucketKey × Int))
    (total : Int) (hsum : total = bucketSum bucket)
    (hpos : ∀ kv ∈ bucket, 0 < kv.2) :
    top_items_sum (finalize_block start stop bucket total) ≤ total := by
  rw [finalize_top_items_sum, hsum, ← sorted_map_seconds_sum bucket]
  exact sum_take_le_sum _ (sorted_map_seconds_nonneg bucket hpos) 5

lemma finalize_block_sum_eq (start stop : Int) (bucket : List (BucketKey × Int))
    (total : Int) (hlen : bucket.length ≤ 5) :
    top_items_sum (finalize_block start stop bucket total) = bucketSum bucket := by
  rw [finalize_top_items_sum]
  have hlen2 : ((List.insertionSort topItemGE (bucketToItems bucket)).map
      (·.seconds)).length ≤ 5 := by
    rw [List.length_map, List.length_insertionSort]
    unfold bucketToItems
    rw [List.length_map]
    exact hlen
  rw [List.take_of_length_le hlen2]
  exact sorted_map_seconds_sum bucket

lemma slice_loop_invariant (bl : Int) (stt : Bool) (hbl : 0 < bl) :
    ∀ (fuel : Nat) (st : BlocksWalkState) (ss seg : Int),
    0 ≤ st.active_seconds → st.active_seconds < bl →
    st.active_seconds = bucketSum st.bucket → (∀ kv ∈ st.bucket, 0 < kv.2) →
    (∀ b ∈ st.blocks, top_items_sum b ≤ b.total_seconds ∧ b.total_seconds ≤ bl) →
    (0 ≤ (slice_loop bl stt fuel st ss seg).active_seconds ∧
     (slice_loop bl stt fuel st ss seg).active_seconds < bl ∧
     (slice_loop bl stt fuel st ss seg).active_seconds =
       bucketSum (slice_loop bl stt fuel st ss seg).bucket ∧
     (∀ kv ∈ (slice_loop bl stt fuel st ss seg).bucket, 0 < kv.2) ∧
     (∀ b ∈ (slice_loop bl stt fuel st ss seg).blocks,
       top_items_sum b ≤ b.total_seconds ∧ b.total_seconds ≤ bl)) := by
  intro fuel
  induction fuel with
  | zero =>
    intro st ss seg h1 h2 h3 h4 h5
    simp only [slice_loop]
    exact ⟨h1, h2, h3, h4, h5⟩
  | succ fuel ih =>
    intro st ss seg h1 h2 h3 h4 h5
    by_cases hseg : seg ≤ 0
    · simp only [slice_loop, if_pos hseg]
      exact ⟨h1, h2, h3, h4, h5⟩
    · by_cases htake : min seg (bl - st.active_seconds) ≤ 0
      · simp only [slice_loop, if_neg hseg, if_pos htake]
        exact ⟨h1, h2, h3, h4, h5⟩
      · have htakepos : 0 < seg ⊓ (bl - st.active_seconds) := lt_of_not_le htake
        simp only [slice_loop, if_neg hseg, if_neg htake]
        cases hres : resolve_entity st ss with
        | none =>
          dsimp only
          rw [if_neg (not_le.mpr h2)]
          exact ih st _ _ h1 h2 h3 h4 h5
        | some trip =>
          obtain ⟨kind, entity, title⟩ := trip
          dsimp only
          have hsum1 : st.active_seconds + seg ⊓ (bl - st.active_seconds) =
              bucketSum (bucketAdd st.bucket (bucketKeyFor stt kind entity title)
                (seg ⊓ (bl - st.active_seconds))) := by
            rw [bucketSum_add]
            omega
          have hpos1 : ∀ kv ∈ bucketAdd st.bucket (bucketKeyFor stt kind entity title)
              (seg ⊓ (bl - st.active_seconds)), 0 < kv.2 :=
            bucketAdd_pos st.bucket _ _ htakepos h4
          by_cases hfin : bl ≤ st.active_seconds + seg ⊓ (bl - st.active_seconds)
          · rw [if_pos hfin]
            apply ih
            · exact le_refl 0
            · exact hbl
            · simp [bucketSum]
            · intro kv hkv
              simp at hkv
            · intro b hb
              rcases List.mem_append.mp hb with hb1 | hb1
              · exact h5 b hb1
              · rw [List.mem_singleton] at hb1
                subst hb1
                constructor
                · exact finalize_block_le _ _ _ _ hsum1 hpos1
                · have : seg ⊓ (bl - st.active_seconds) ≤ bl - st.active_seconds :=
                    min_le_right _ _
                  simp only [finalize_block]
                  omega
          · rw [if_neg hfin]
            apply ih
            · dsimp only
              omega
            · dsimp only
              omega
            · exact hsum1
            · exact hpos1
            · exact h5

lemma blocks_step_invariant (ic bl : Int) (stt : Bool) (st : BlocksWalkState)
    (cur : EventForBlocks) (next_ts : Int) (hbl : 0 < bl)
    (h1 : 0 ≤ st.active_seconds) (h2 : st.active_seconds < bl)
    (h3 : st.active_seconds = bucketSum st.bucket) (h4 : ∀ kv ∈ st.bucket, 0 < kv.2)
    (h5 : ∀ b ∈ st.blocks, top_items_sum b ≤ b.total_seconds ∧ b.total_seconds ≤ bl) :
    0 ≤ (blocks_step ic bl stt st cur next_ts).active_seconds ∧
    (blocks_step ic bl stt st cur next_ts).active_seconds < bl ∧
    (blocks_step ic bl stt st cur next_ts).active_seconds =
      bucketSum (blocks_step ic bl stt st cur next_ts).bucket ∧
    (∀ kv ∈ (blocks_step ic bl stt st cur next_ts).bucket, 0 < kv.2) ∧
    (∀ b ∈ (blocks_step ic bl stt st cur next_ts).blocks,
      top_items_sum b ≤ b.total_seconds ∧ b.total_seconds ≤ bl) := by
  by_cases hns : next_ts ≤ cur.ts
  · simp only [blocks_step, if_pos hns]
    exact ⟨h1, h2, h3, h4, h5⟩
  · obtain ⟨hpb, hpa, hpk, hps, hpe⟩ := blocks_update_registers_parts st cur
    by_cases hseg : min (next_ts - cur.ts) ic ≤ 0
    · simp only [blocks_step, if_neg hns, if_pos hseg]
      refine ⟨?_, ?_, ?_, ?_, ?_⟩
      · rw [hpa]; exact h1
      · rw [hpa]; exact h2
      · rw [hpa, hpk]; exact h3
      · rw [hpk]; exact h4
      · rw [hpb]; exact h5
    · obtain ⟨k1, k2, k3, k4, k5⟩ := slice_loop_invariant bl stt hbl
        (min (next_ts - cur.ts) ic).toNat (blocks_update_registers st cur) cur.ts
        (min (next_ts - cur.ts) ic)
        (by rw [hpa]; exact h1) (by rw [hpa]; exact h2)
        (by rw [hpa, hpk]; exact h3) (by rw [hpk]; exact h4) (by rw [hpb]; exact h5)
      by_cases hgap : ic < next_ts - cur.ts
      · simp only [blocks_step, if_neg hns, if_neg hseg, if_pos hgap]
        refine ⟨le_refl 0, hbl, by simp [bucketSum], ?_, ?_⟩
        · intro kv hkv
          simp at hkv
        · intro b hb
          split at hb
          · rcases List.mem_append.mp hb with hb1 | hb1
            · exact k5 b hb1
            · rw [List.mem_singleton] at hb1
              subst hb1
              refine ⟨finalize_block_le _ _ _ _ k3 k4, ?_⟩
              simp only [finalize_block]
              omega
          · exact k5 b hb
      · simp only [blocks_step, if_neg hns, if_neg hseg, if_neg hgap]
        exact ⟨k1, k2, k3, k4, k5⟩

lemma blocks_walk_good (ic bl : Int) (stt : Bool) (now : Int) (hbl : 0 < bl) :
    ∀ (evs : List EventForBlocks) (st : BlocksWalkState),
    0 ≤ st.active_seconds → st.active_seconds < bl →
    st.active_seconds = bucketSum st.bucket → (∀ kv ∈ st.bucket, 0 < kv.2) →
    (∀ b ∈ st.blocks, top_items_sum b ≤ b.total_seconds ∧ b.total_seconds ≤ bl) →
    0 ≤ (blocks_walk ic bl stt now st evs).active_seconds ∧
    (blocks_walk ic bl stt now st evs).active_seconds < bl ∧
    (blocks_walk ic bl stt now st evs).active_seconds =
      bucketSum (blocks_walk ic bl stt now st evs).bucket ∧
    (∀ kv ∈ (blocks_walk ic bl stt now st evs).bucket, 0 < kv.2) ∧
    (∀ b ∈ (blocks_walk ic bl stt now st evs).blocks,
      top_items_sum b ≤ b.total_seconds ∧ b.total_seconds ≤ bl) := by
  intro evs
  induction evs with
  | nil =>
    intro st h1 h2 h3 h4 h5
    simp only [blocks_walk]
    exact ⟨h1, h2, h3, h4, h5⟩
  | cons cur rest ih =>
    intro st h1 h2 h3 h4 h5
    simp only [blocks_walk]
    obtain ⟨k1, k2, k3, k4, k5⟩ :=
      blocks_step_invariant ic bl stt st cur (((rest.head?.map (·.ts)).getD now)) hbl
        h1 h2 h3 h4 h5
    exact ih _ k1 k2 k3 k4 k5

lemma build_blocks_core_good (ic bl : Int) (stt : Bool) (now : Int) (hbl : 0 < bl)
    (focus_events : List EventForBlocks) (f0 : EventForBlocks) :
    ∀ b ∈ build_blocks_core ic bl stt now focus_events f0,
      top_items_sum b ≤ b.total_seconds ∧ b.total_seconds ≤ bl := by
  intro b hb
  simp only [build_blocks_core] at hb
  obtain ⟨k1, k2, k3, k4, k5⟩ := blocks_walk_good ic bl stt now hbl focus_events
    ⟨[], f0.ts, f0.ts, 0, [], none, none, none, none⟩ (le_refl 0) hbl
    (by simp [bucketSum]) (by intro kv hkv; simp at hkv) (by intro x hx; simp at hx)
  split at hb
  · rcases List.mem_append.mp hb with hb1 | hb1
    · exact k5 b hb1
    · rw [List.mem_singleton] at hb1
      subst hb1
      refine ⟨finalize_block_le _ _ _ _ k3 k4, ?_⟩
      simp only [finalize_block]
      omega
  · exact k5 b hb

lemma attach_background_audio_fields (blocks : List BlockSummary)
    (audio_events : List EventForBlocks) (stt : Bool) (ic now : Int) :
    ∀ b2 ∈ attach_background_audio blocks audio_events stt ic now,
      ∃ b ∈ blocks, top_items_sum b2 = top_items_sum b ∧
        b2.total_seconds = b.total_seconds := by
  intro b2 hb2
  unfold attach_background_audio at hb2
  simp only [List.mem_map] at hb2
  obtain ⟨x, hx, hbeq⟩ := hb2
  refine ⟨x.1, (List.of_mem_zip hx).1, ?_⟩
  subst hbeq
  by_cases ht : x.2.2 ≤ 0 <;> simp [ht, top_items_sum]

/-- C6: every block produced by the block builder satisfies
    Σ top_items.seconds ≤ total_seconds ≤ max(60, block_seconds), and the sum
    equals total_seconds exactly when the block's bucket has at most 5 entries
    (truncation to the top 5 is the only source of deficit). -/
theorem c6_block_sums :
    (∀ (events : List EventForBlocks) (settings : Settings) (now : Int)
      (b : BlockSummary), b ∈ build_blocks events settings now →
      top_items_sum b ≤ b.total_seconds ∧
      b.total_seconds ≤ max settings.block_seconds 60) ∧
    (∀ (start stop : Int) (bucket : List (BucketKey × Int)), bucket.length ≤ 5 →
      top_items_sum (finalize_block start stop bucket (bucketSum bucket)) =
        bucketSum bucket) := by
  constructor
  · intro events settings now b hb
    have hbl : 0 < max settings.block_seconds 60 := by
      have := le_max_right settings.block_seconds 60
      omega
    cases events with
    | nil => simp [build_blocks] at hb
    | cons e0 rest =>
      simp only [build_blocks] at hb
      repeat' split at hb
      all_goals
        first
        | exact absurd hb (List.not_mem_nil b)
        | (obtain ⟨b0, hb0, hti, hts⟩ := attach_background_audio_fields _ _ _ _ _ b hb
           rw [hti, hts]
           exact build_blocks_core_good _ _ _ _ hbl _ _ b0 hb0)
        | exact build_blocks_core_good _ _ _ _ hbl _ _ b hb
  · intro start stop bucket hlen
    exact finalize_block_sum_eq start stop bucket _ hlen

theorem c6_block_sums_witness :
    (top_items_sum ⟨0, 0, 10, 10, [⟨"app".toList, "a".toList, none, 10⟩], [], none, none⟩ ≤
      (⟨0, 0, 10, 10, [⟨"app".toList, "a".toList, none, 10⟩], [], none, none⟩ :
        BlockSummary).total_seconds ∧
      (⟨0, 0, 10, 10, [⟨"app".toList, "a".toList, none, 10⟩], [], none, none⟩ :
        BlockSummary).total_seconds ≤ max (60 : Int) 60) ∧
    top_items_sum (finalize_block 0 1 [(⟨EntityKind.app, "a".toList, none⟩, 5)]
        (bucketSum [(⟨EntityKind.app, "a".toList, none⟩, 5)])) =
      bucketSum [(⟨EntityKind.app, "a".toList, none⟩, 5)] :=
  ⟨c6_block_sums.1 [⟨0, [], "app_active".toList, "a".toList, none, none⟩]
      ⟨60, 10, false, false, 300, 30, false, false⟩ 30
      ⟨0, 0, 10, 10, [⟨"app".toList, "a".toList, none, 10⟩], [], none, none⟩ (by decide),
   c6_block_sums.2 0 1 [(⟨EntityKind.app, "a".toList, none⟩, 5)] (by decide)⟩
